import Mathlib

/-!
# Verification of the expense-tracker core (storage + service + validation)

A shallow embedding of the Python expense tracker:

* strings are `String` (whose `data` is a `List Char`, matching Python's
  sequence-of-code-points view; all helper functions are defined on `.data`),
* amounts (Python `float`) are modelled as exact rationals `ℚ`,
* the JSON file is modelled by an explicit `FileState`,
* fallible functions return `Except String _` (the Python code raises
  `ValueError` with the corresponding message),
* Python's stable `sorted` is modelled by `List.insertionSort` (a stable
  sorting algorithm; `reverse=True` is modelled by the flipped relation,
  which matches Python's documented behaviour that ties keep their original
  order also under `reverse=True`).
-/

namespace Tracker

/-! ## Character/string helpers modelling Python's `str` methods -/

/-- The ASCII whitespace characters removed by Python's `str.strip()`
(Unicode whitespace beyond ASCII is not modelled). -/
def isPySpace (c : Char) : Bool :=
  c = ' ' || c = '\t' || c = '\n' || c = '\r' || c = Char.ofNat 11 || c = Char.ofNat 12

/-- Models Python `s.strip()`: remove leading and trailing whitespace. -/
def stripWS (l : List Char) : List Char :=
  ((l.dropWhile isPySpace).reverse.dropWhile isPySpace).reverse

/-- Models Python `s.strip()` on `String`. -/
def pyStrip (s : String) : String := ⟨stripWS s.data⟩

/-- Models Python `s.lower()` (ASCII case mapping). -/
def pyLower (s : String) : String := ⟨s.data.map Char.toLower⟩

/-- Models Python `s.startswith(pre)`. -/
def pyStartsWith (s pre : String) : Bool := pre.data.isPrefixOf s.data

/-- Python's lexicographic `<` on strings viewed as lists of code points. -/
def pyStrLtL : List Char → List Char → Bool
  | [], [] => false
  | [], _ :: _ => true
  | _ :: _, [] => false
  | a :: as, b :: bs =>
    if a < b then true
    else if b < a then false
    else pyStrLtL as bs

/-- Models Python `s <= t` (lexicographic comparison by code point). -/
def pyStrLe (s t : String) : Bool := !(pyStrLtL t.data s.data)

/-- Models Python `s.replace('-', '')`: remove every dash. -/
def stripDashes (s : String) : String := ⟨s.data.filter (fun c => c ≠ '-')⟩

/-- Models Python `s.split('-')` (split on every occurrence of the
separator, keeping empty components). -/
def splitOnChar (c : Char) : List Char → List (List Char)
  | [] => [[]]
  | x :: xs =>
    if x = c then [] :: splitOnChar c xs
    else
      match splitOnChar c xs with
      | [] => [[x]]
      | h :: t => (x :: h) :: t

/-- The component of `s` after the last `c` (Python `s.split(c)[-1]`). -/
def lastComp (c : Char) (s : String) : List Char :=
  (splitOnChar c s.data).getLastD []

/-- Value of a decimal digit character. -/
def digitVal (c : Char) : Nat := c.toNat - 48

/-- Numeric value of a list of decimal digit characters (standard
positional base-10 reading, as performed by Python's `int`). -/
def digitsVal (l : List Char) : Nat :=
  l.foldl (fun a c => 10 * a + digitVal c) 0

/-- Models Python `int(str)` on the string `l`: optional surrounding ASCII
whitespace, an optional single sign, then a nonempty run of decimal digits.
(Numeric-literal underscores accepted by Python 3 are not modelled; the
strings this program parses never contain them.) -/
def pyInt? (l : List Char) : Option Int :=
  let t := stripWS l
  let mag := if t.head? = some '+' ∨ t.head? = some '-' then t.tail else t
  let sign : Int := if t.head? = some '-' then -1 else 1
  if mag ≠ [] ∧ mag.all Char.isDigit then some (sign * (digitsVal mag : Int)) else none

/-- Decimal digit characters of `n/10 ≥ fuel`-bounded recursion; used with
`fuel ≥ n` this produces the standard decimal rendering of `n` (most
significant digit first), with no output for `n = 0`. -/
def natToCharsAux : Nat → Nat → List Char
  | _, 0 => []
  | 0, _ + 1 => []
  | f + 1, n + 1 => natToCharsAux f ((n + 1) / 10) ++ [Nat.digitChar ((n + 1) % 10)]

/-- Decimal rendering of a natural number (Python `str(n)` for `n ≥ 0`). -/
def natToChars (n : Nat) : List Char :=
  if n = 0 then ['0'] else natToCharsAux n n

/-- Models Python `f"{i:04d}"`: decimal rendering of `i`, left-padded with
zeros to width 4 (the sign, when present, precedes the padding). -/
def pad4 (i : Int) : String :=
  let digits := natToChars i.natAbs
  let sign : List Char := if i < 0 then ['-'] else []
  ⟨sign ++ List.replicate (4 - (digits.length + sign.length)) '0' ++ digits⟩

/-! ## Data model (`models.py`) -/

/-- `Expense` from `tracker/models.py`: one recorded spending event.
`amount` (a Python float) is modelled as an exact rational. -/
structure Expense where
  id : String
  date : String
  category : String
  amount : ℚ
  currency : String := "BDT"
  note : String := ""
  created_at : String := ""
deriving DecidableEq, Repr

instance : Inhabited Expense := ⟨{ id := "", date := "", category := "", amount := 0 }⟩

/-! ## Validation (`validation.py`) -/

/-- `validate_amount` from `validation.py`: true iff the amount is `> 0`. -/
def validate_amount (amount : ℚ) : Bool := !(amount ≤ 0)

/-- Gregorian leap-year rule (as used by Python's `datetime`). -/
def leapYear (y : Nat) : Bool := y % 4 = 0 && (y % 100 ≠ 0 || y % 400 = 0)

/-- Number of days in a month of the Gregorian calendar. -/
def daysInMonth (y m : Nat) : Nat :=
  if m = 2 then (if leapYear y then 29 else 28)
  else if m = 4 ∨ m = 6 ∨ m = 9 ∨ m = 11 then 30
  else 31

/-- `validate_date` from `validation.py`: true iff
`datetime.strptime(s, "%Y-%m-%d")` succeeds, i.e. the string consists of
three dash-separated all-digit fields (`strptime` accepts 1-4 digits for
`%Y` and 1-2 digits for `%m`/`%d`) denoting a real calendar date with
year in 1..9999. -/
def validate_date (s : String) : Bool :=
  match splitOnChar '-' s.data with
  | [ys, ms, ds] =>
    ys ≠ [] && ys.length ≤ 4 && ys.all Char.isDigit &&
    ms ≠ [] && ms.length ≤ 2 && ms.all Char.isDigit &&
    ds ≠ [] && ds.length ≤ 2 && ds.all Char.isDigit &&
    (let y := digitsVal ys
     let m := digitsVal ms
     let d := digitsVal ds
     1 ≤ y && 1 ≤ m && m ≤ 12 && 1 ≤ d && d ≤ daysInMonth y m)
  | _ => false

/-- `validate_category` from `validation.py`: true iff the category is
nonempty after trimming (`if not category or not category.strip()`). -/
def validate_category (category : String) : Bool :=
  !(category = "" || pyStrip category = "")

/-- `format_date` from `validation.py`.  `today` is the value of
`datetime.now().strftime("%Y-%m-%d")`; the argument is `None` or a string
(`if not date_str or date_str.lower() == 'today'` returns today's date). -/
def format_date (today : String) : Option String → Except String String
  | none => .ok today
  | some s =>
    if s = "" ∨ pyLower s = "today" then .ok today
    else if validate_date s then .ok s
    else .error "Error: date must be in YYYY-MM-DD format"

/-- Input to `format_amount`: either a value `float(...)` converts (its exact
rational value), or one on which the conversion raises (a non-numeric
string and the like). -/
inductive AmountInput where
  | numeric (q : ℚ)
  | nonNumeric
deriving DecidableEq

/-- Round half to even at integer precision (the rule of Python's built-in
`round` on exact values). -/
def roundHalfEven (q : ℚ) : Int :=
  let f := ⌊q⌋
  if q - f < 1 / 2 then f
  else if 1 / 2 < q - f then f + 1
  else if Even f then f else f + 1

/-- Models Python `round(q, 2)` on exact values: round half to even at two
decimal places. -/
def pyRound2 (q : ℚ) : ℚ := (roundHalfEven (100 * q) : ℚ) / 100

/-- `format_amount` from `validation.py`: coerce with `float(...)`
(re-raising its failure as "must be a valid number"), reject non-positive
values, round the rest to 2 decimal places. -/
def format_amount : AmountInput → Except String ℚ
  | .nonNumeric => .error "Error: amount must be a valid number"
  | .numeric q =>
    if validate_amount q then .ok (pyRound2 q)
    else .error "Error: amount must be > 0"

/-- `format_category` from `validation.py`: reject empty-after-trim input,
otherwise return the trimmed lower-cased category. -/
def format_category (category : String) : Except String String :=
  if validate_category category then .ok (pyLower (pyStrip category))
  else .error "Error: category cannot be empty"

/-! ## Storage (`storage.py`)

The JSON file is modelled by an explicit state: missing, present but not
structurally valid JSON, or a parsed document `{"version": 1,
"expenses": [...]}` (whose expense dictionaries are modelled directly as
`Expense` records). -/

/-- State of the persisted data file. -/
inductive FileState where
  | missing
  | invalidJson
  | doc (expenses : List Expense)
deriving DecidableEq

/-- The initial document written by `_ensure_file_exists`:
`{"version": 1, "expenses": []}`. -/
def initialFile : FileState := .doc []

/-- `_ensure_file_exists` from `storage.py`: create the file with the
initial structure if absent, otherwise leave it alone. -/
def ensure_file_exists : FileState → FileState
  | .missing => initialFile
  | fs => fs

/-- `load_all` from `storage.py`: parse the document (returning the updated
file state alongside the records).  Structurally invalid JSON raises
`ValueError` naming the file path; a missing file is re-initialized and
yields the empty list. -/
def load_all (filepath : String) : FileState → Except String (List Expense × FileState)
  | .doc es => .ok (es, .doc es)
  | .invalidJson => .error ("Error: Data file is corrupted. Please check " ++ filepath)
  | .missing => .ok ([], ensure_file_exists .missing)

namespace Storage

/-- `ExpenseStorage.add`: load the collection, append, save. -/
def add (expense : Expense) (col : List Expense) : List Expense := col ++ [expense]

/-- Result of `ExpenseStorage.delete`: the returned boolean, the persisted
collection afterwards, and whether `save_all` was called. -/
structure DeleteOutcome where
  removed : Bool
  expenses : List Expense
  saved : Bool
deriving DecidableEq

/-- `ExpenseStorage.delete` from `storage.py`: filter out every record with
the given id; save (and return `True`) only if the count decreased. -/
def delete (expense_id : String) (col : List Expense) : DeleteOutcome :=
  let remaining := col.filter (fun exp => exp.id ≠ expense_id)
  if remaining.length < col.length then ⟨true, remaining, true⟩
  else ⟨false, col, false⟩

/-- The `updates` dictionary built by `edit_expense` and applied by
`ExpenseStorage.update` via `exp_dict.update(updates)`: a typed patch whose
possible keys are exactly the five fields `edit_expense` may supply
(`id` and `created_at` never appear in it). -/
structure ExpensePatch where
  date : Option String := none
  category : Option String := none
  amount : Option ℚ := none
  note : Option String := none
  currency : Option String := none
deriving DecidableEq

/-- `exp_dict.update(updates)` followed by `Expense.from_dict`: fields
present in the patch replace the old values, all others are kept. -/
def applyPatch (e : Expense) (u : ExpensePatch) : Expense :=
  { id := e.id
    date := u.date.getD e.date
    category := u.category.getD e.category
    amount := u.amount.getD e.amount
    currency := u.currency.getD e.currency
    note := u.note.getD e.note
    created_at := e.created_at }

/-- `ExpenseStorage.update` from `storage.py`: walk the collection, replace
the first record with a matching id by its patched version, save, and
return it; return `None` (with the collection untouched) if none matches. -/
def update (expense_id : String) (u : ExpensePatch) : List Expense → Option Expense × List Expense
  | [] => (none, [])
  | e :: rest =>
    if e.id = expense_id then (some (applyPatch e u), applyPatch e u :: rest)
    else
      let r := update expense_id u rest
      (r.1, e :: r.2)

end Storage

/-! ## Service (`service.py`) -/

/-- The scanning loop of `ExpenseService.generate_id`: over the whole
collection, for ids starting with the date prefix, track the maximal
integer suffix after the last `-`, skipping suffixes `int` rejects
(`except ValueError: continue`); starts from 0. -/
def maxSeq (col : List Expense) (datePref : String) : Int :=
  col.foldl
    (fun acc exp =>
      if pyStartsWith exp.id datePref then
        match pyInt? (lastComp '-' exp.id) with
        | some seq => max acc seq
        | none => acc
      else acc)
    0

/-- `ExpenseService.generate_id` from `service.py`: scan the whole
collection for ids starting with `EXP-<date-without-dashes>`, take the
maximal integer suffix found, and return the prefix with the next sequence
number, zero-padded to 4 digits. -/
def generate_id (col : List Expense) (date : String) : String :=
  let datePref := "EXP-" ++ stripDashes date
  datePref ++ "-" ++ pad4 (maxSeq col datePref + 1)

/-- `ExpenseService.add_expense` from `service.py`.  `today` feeds
`format_date`, `created_at` is the `datetime.now()` timestamp; on success
returns the created expense and the saved collection. -/
def add_expense (today created_at : String) (date : Option String) (category : String)
    (amount : ℚ) (note : String) (currency : String) (col : List Expense) :
    Except String (Expense × List Expense) := do
  let formatted_date ← format_date today date
  let formatted_amount ← format_amount (.numeric amount)
  let formatted_category ← format_category category
  let expense_id := generate_id col formatted_date
  let expense : Expense :=
    { id := expense_id
      date := formatted_date
      category := formatted_category
      amount := formatted_amount
      currency := currency
      note := pyStrip note
      created_at := created_at }
  return (expense, Storage.add expense col)

/-- Python truthiness of an optional string (`if month:`): false for `None`
and for the empty string. -/
def truthyStr : Option String → Bool
  | none => false
  | some s => s ≠ ""

/-- `ExpenseService._apply_filters` from `service.py`: the six filters
applied in sequence, each guarded as in the code (`if month:` …,
`if min_amount is not None:` …). -/
def apply_filters (expenses : List Expense) (month from_date to_date category : Option String)
    (min_amount max_amount : Option ℚ) : List Expense :=
  let f1 := if truthyStr month then
      expenses.filter (fun exp => pyStartsWith exp.date (month.getD "")) else expenses
  let f2 := if truthyStr from_date then
      f1.filter (fun exp => pyStrLe (from_date.getD "") exp.date) else f1
  let f3 := if truthyStr to_date then
      f2.filter (fun exp => pyStrLe exp.date (to_date.getD "")) else f2
  let f4 := if truthyStr category then
      f3.filter (fun exp => decide (pyLower exp.category = pyLower (category.getD ""))) else f3
  let f5 := if min_amount.isSome then
      f4.filter (fun exp => decide (min_amount.getD 0 ≤ exp.amount)) else f4
  let f6 := if max_amount.isSome then
      f5.filter (fun exp => decide (exp.amount ≤ max_amount.getD 0)) else f5
  f6

/-- The comparison relation underlying `ExpenseService._sort_expenses`:
compare by the field `sorted` keys on (`amount`, `category`, anything else
defaults to `date`), flipped when `descending`. -/
def sortLe (sort_by : String) (descending : Bool) (a b : Expense) : Bool :=
  if sort_by = "amount" then
    (if descending then decide (b.amount ≤ a.amount) else decide (a.amount ≤ b.amount))
  else if sort_by = "category" then
    (if descending then pyStrLe b.category a.category else pyStrLe a.category b.category)
  else
    (if descending then pyStrLe b.date a.date else pyStrLe a.date b.date)

/-- `ExpenseService._sort_expenses` from `service.py`: Python's `sorted`
(a stable sort) over the selected key, modelled by stable insertion sort. -/
def sort_expenses (expenses : List Expense) (sort_by : String) (descending : Bool) :
    List Expense :=
  List.insertionSort (fun a b => sortLe sort_by descending a b = true) expenses

/-- `ExpenseService.list_expenses` from `service.py`: filter, sort, then
truncate when a positive limit is given (`if limit and limit > 0`). -/
def list_expenses (col : List Expense) (month from_date to_date category : Option String)
    (min_amount max_amount : Option ℚ) (sort_by : String) (descending : Bool)
    (limit : Option Int) : List Expense :=
  let filtered := apply_filters col month from_date to_date category min_amount max_amount
  let sorted := sort_expenses filtered sort_by descending
  match limit with
  | some l => if 0 < l then sorted.take l.toNat else sorted
  | none => sorted

/-- The summary dictionary returned by `ExpenseService.summary`
(`totals_by_category`, a Python dict, is modelled as an association list in
key-insertion order). -/
structure Summary where
  count : Nat
  grand_total : ℚ
  totals_by_category : List (String × ℚ)
  currency : String
  period : String
deriving DecidableEq, Repr

/-- `ExpenseService._get_period_description` from `service.py`. -/
def get_period_description (month from_date to_date : Option String) : String :=
  if truthyStr month then "(" ++ month.getD "" ++ ")"
  else if truthyStr from_date && truthyStr to_date then
    "(" ++ from_date.getD "" ++ " to " ++ to_date.getD "" ++ ")"
  else if truthyStr from_date then "(from " ++ from_date.getD "" ++ ")"
  else if truthyStr to_date then "(to " ++ to_date.getD "" ++ ")"
  else "(all time)"

/-- Add `amt` to the value at the first occurrence of key `cat`. -/
def bumpFirst (cat : String) (amt : ℚ) : List (String × ℚ) → List (String × ℚ)
  | [] => []
  | (k, v) :: rest =>
    if k = cat then (k, v + amt) :: rest else (k, v) :: bumpFirst cat amt rest

/-- One step of the category-totals loop in `summary`:
`if exp.category not in category_totals: category_totals[exp.category] = 0.0`
then `category_totals[exp.category] += exp.amount`. -/
def addToTotals (totals : List (String × ℚ)) (cat : String) (amt : ℚ) :
    List (String × ℚ) :=
  if totals.any (fun kv => kv.1 = cat) then bumpFirst cat amt totals
  else totals ++ [(cat, amt)]

/-- `ExpenseService.summary` from `service.py`: aggregate over
`list_expenses` called with the same four filters (and its default sorting:
by date, ascending, no limit). -/
def summary (col : List Expense) (month from_date to_date category : Option String) :
    Summary :=
  let expenses := list_expenses col month from_date to_date category none none "date" false none
  match expenses with
  | [] =>
    { count := 0
      grand_total := 0
      totals_by_category := []
      currency := "BDT"
      period := get_period_description month from_date to_date }
  | first :: rest =>
    { count := (first :: rest).length
      grand_total := ((first :: rest).map (fun exp => exp.amount)).sum
      totals_by_category :=
        (first :: rest).foldl (fun m exp => addToTotals m exp.category exp.amount) []
      currency := first.currency
      period := get_period_description month from_date to_date }

/-- `ExpenseService.delete_expense`: a thin pass-through to
`ExpenseStorage.delete`. -/
def delete_expense (expense_id : String) (col : List Expense) : Storage.DeleteOutcome :=
  Storage.delete expense_id col

/-- `ExpenseService.edit_expense` from `service.py`: build the updates
dictionary from the supplied fields (validating/formatting each), then
apply it through `ExpenseStorage.update`. -/
def edit_expense (today : String) (expense_id : String)
    (date category : Option String) (amount : Option ℚ) (note currency : Option String)
    (col : List Expense) : Except String (Option Expense × List Expense) := do
  let u : Storage.ExpensePatch := {}
  let u ← match date with
    | none => pure u
    | some d => do
      let fd ← format_date today (some d)
      pure { u with date := some fd }
  let u ← match category with
    | none => pure u
    | some c => do
      let fc ← format_category c
      pure { u with category := some fc }
  let u ← match amount with
    | none => pure u
    | some a => do
      let fa ← format_amount (.numeric a)
      pure { u with amount := some fa }
  let u := match note with
    | none => u
    | some n => { u with note := some (pyStrip n) }
  let u := match currency with
    | none => u
    | some c => { u with currency := some c }
  return Storage.update expense_id u col

/-! ## General lemmas about the storage layer -/

/-- A collection in which no record matches is returned unchanged by
`Storage.update`, with result `none`. -/
theorem Storage.update_no_match (expense_id : String) (u : Storage.ExpensePatch) :
    ∀ col : List Expense, (∀ e ∈ col, e.id ≠ expense_id) →
      Storage.update expense_id u col = (none, col) := by
  intro col h
  induction col with
  | nil => rfl
  | cons e rest ih =>
    have he : e.id ≠ expense_id := h e (List.mem_cons_self e rest)
    have hrest := ih (fun x hx => h x (List.mem_cons_of_mem e hx))
    simp [Storage.update, he, hrest]

/-- `Storage.update` replaces exactly the first matching record, leaving
everything before and after it untouched. -/
theorem Storage.update_first_match (expense_id : String) (u : Storage.ExpensePatch)
    (pre : List Expense) (e : Expense) (post : List Expense)
    (hpre : ∀ x ∈ pre, x.id ≠ expense_id) (he : e.id = expense_id) :
    Storage.update expense_id u (pre ++ e :: post) =
      (some (Storage.applyPatch e u), pre ++ Storage.applyPatch e u :: post) := by
  induction pre with
  | nil => simp [Storage.update, he]
  | cons x pre ih =>
    have hx : x.id ≠ expense_id := hpre x (List.mem_cons_self x pre)
    have := ih (fun y hy => hpre y (List.mem_cons_of_mem x hy))
    simp [Storage.update, hx, this]

/-- A record of the collection matches iff filtering the matches out
shrinks the collection. -/
theorem delete_filter_lt (col : List Expense) (expense_id : String) :
    (col.filter (fun exp => exp.id ≠ expense_id)).length < col.length ↔
      ∃ e ∈ col, e.id = expense_id := by
  constructor
  · intro h
    by_contra hnone
    push_neg at hnone
    have : ∀ e ∈ col, (decide (e.id ≠ expense_id)) = true := by
      intro e he
      simpa using hnone e he
    have := List.filter_length_eq_length.mpr this
    omega
  · rintro ⟨e, he, hid⟩
    have hle := List.length_filter_le (fun exp => decide (exp.id ≠ expense_id)) col
    rcases Nat.lt_or_ge ((col.filter (fun exp => exp.id ≠ expense_id)).length) col.length with h | h
    · exact h
    have heq : (col.filter (fun exp => exp.id ≠ expense_id)).length = col.length := by omega
    have := List.filter_length_eq_length.mp heq e he
    simp [hid] at this

/-! ## Claim theorems -/

/-- Claim C5: `delete` returns true iff a record with the id was present
(and then removed); on a miss it returns false as a normal result, performs
no save, and the stored collection is exactly unchanged. -/
theorem delete_not_found_spec (col : List Expense) (expense_id : String) :
    ((Storage.delete expense_id col).removed = true ↔ ∃ e ∈ col, e.id = expense_id) ∧
    ((Storage.delete expense_id col).removed = false →
      (Storage.delete expense_id col).expenses = col ∧
      (Storage.delete expense_id col).saved = false) := by
  unfold Storage.delete
  dsimp only
  split
  next h =>
    refine ⟨⟨fun _ => (delete_filter_lt col expense_id).mp h, fun _ => rfl⟩, ?_⟩
    intro hfalse
    simp at hfalse
  next h =>
    refine ⟨⟨?_, ?_⟩, fun _ => ⟨rfl, rfl⟩⟩
    · intro htrue
      simp at htrue
    · intro hex
      exact absurd ((delete_filter_lt col expense_id).mpr hex) h

/-- Claim C10: `delete` removes every record with the given id (not only
the first match), keeps every other record, and — in contrast — `update`
only touches the first match, leaving later duplicates as they are. -/
theorem delete_removes_every_match (col : List Expense) (expense_id : String)
    (u : Storage.ExpensePatch) :
    ((Storage.delete expense_id col).removed = true →
      ∀ e ∈ (Storage.delete expense_id col).expenses, e.id ≠ expense_id) ∧
    (∀ e ∈ col, e.id ≠ expense_id → e ∈ (Storage.delete expense_id col).expenses) ∧
    (∀ pre e post, col = pre ++ e :: post → (∀ x ∈ pre, x.id ≠ expense_id) →
      e.id = expense_id →
      Storage.update expense_id u col =
        (some (Storage.applyPatch e u), pre ++ Storage.applyPatch e u :: post)) := by
  refine ⟨?_, ?_, ?_⟩
  · unfold Storage.delete
    dsimp only
    split
    next h =>
      intro _ e he
      simpa using (List.mem_filter.mp he).2
    next h =>
      intro hrem
      simp at hrem
  · intro e he hne
    unfold Storage.delete
    dsimp only
    split
    next h => exact List.mem_filter.mpr ⟨he, by simpa using hne⟩
    next h => exact he
  · rintro pre e post rfl hpre he
    exact Storage.update_first_match expense_id u pre e post hpre he

/-- Claim C5 witness: a miss on the singleton collection. -/
theorem delete_not_found_spec_witness :
    (Storage.delete "EXP-20240101-0002"
        [{ id := "EXP-20240101-0001", date := "2024-01-01", category := "food",
           amount := 5 }]).removed = false →
      (Storage.delete "EXP-20240101-0002"
          [{ id := "EXP-20240101-0001", date := "2024-01-01", category := "food",
             amount := 5 }]).expenses =
          [{ id := "EXP-20240101-0001", date := "2024-01-01", category := "food",
             amount := 5 }] ∧
        (Storage.delete "EXP-20240101-0002"
            [{ id := "EXP-20240101-0001", date := "2024-01-01", category := "food",
               amount := 5 }]).saved = false :=
  (delete_not_found_spec
    [{ id := "EXP-20240101-0001", date := "2024-01-01", category := "food",
       amount := 5 }] "EXP-20240101-0002").2

/-- Claim C10 witness: deleting an id that occurs twice removes both
occurrences, while `update` patches only the first one. -/
theorem delete_removes_every_match_witness :
    (∀ e ∈ (Storage.delete "EXP-20240101-0001"
        [{ id := "EXP-20240101-0001", date := "2024-01-01", category := "food",
           amount := 5 },
         { id := "EXP-20240101-0002", date := "2024-01-01", category := "rent",
           amount := 7 },
         { id := "EXP-20240101-0001", date := "2024-01-01", category := "gas",
           amount := 9 }]).expenses,
      (Storage.delete "EXP-20240101-0001"
        [{ id := "EXP-20240101-0001", date := "2024-01-01", category := "food",
           amount := 5 },
         { id := "EXP-20240101-0002", date := "2024-01-01", category := "rent",
           amount := 7 },
         { id := "EXP-20240101-0001", date := "2024-01-01", category := "gas",
           amount := 9 }]).removed = true → e.id ≠ "EXP-20240101-0001") ∧
    Storage.update "EXP-20240101-0001" { amount := some 11 }
        [{ id := "EXP-20240101-0001", date := "2024-01-01", category := "food",
           amount := 5 },
         { id := "EXP-20240101-0002", date := "2024-01-01", category := "rent",
           amount := 7 },
         { id := "EXP-20240101-0001", date := "2024-01-01", category := "gas",
           amount := 9 }] =
      (some { id := "EXP-20240101-0001", date := "2024-01-01", category := "food",
              amount := 11 },
       [{ id := "EXP-20240101-0001", date := "2024-01-01", category := "food",
          amount := 11 },
        { id := "EXP-20240101-0002", date := "2024-01-01", category := "rent",
          amount := 7 },
        { id := "EXP-20240101-0001", date := "2024-01-01", category := "gas",
          amount := 9 }]) := by
  refine ⟨fun e he h => ?_, ?_⟩
  · exact (delete_removes_every_match _ "EXP-20240101-0001" {}).1 h e he
  · have := (delete_removes_every_match
      [{ id := "EXP-20240101-0001", date := "2024-01-01", category := "food",
         amount := (5:ℚ) },
       { id := "EXP-20240101-0002", date := "2024-01-01", category := "rent",
         amount := 7 },
       { id := "EXP-20240101-0001", date := "2024-01-01", category := "gas",
         amount := 9 }] "EXP-20240101-0001" { amount := some 11 }).2.2
      []
      { id := "EXP-20240101-0001", date := "2024-01-01", category := "food",
        amount := (5:ℚ) }
      [{ id := "EXP-20240101-0002", date := "2024-01-01", category := "rent",
         amount := 7 },
       { id := "EXP-20240101-0001", date := "2024-01-01", category := "gas",
         amount := 9 }]
      rfl (by intro x hx; cases hx) rfl
    simpa [Storage.applyPatch] using this

/-- Claim C7: on a structurally invalid JSON file `load_all` fails with an
error naming the file path and returns no (partial) list; on a missing
file it re-initializes the file and returns the empty list. -/
theorem load_all_spec (filepath : String) (fs : FileState) :
    (fs = .invalidJson →
      load_all filepath fs =
        .error ("Error: Data file is corrupted. Please check " ++ filepath) ∧
      ∀ r, load_all filepath fs ≠ .ok r) ∧
    (fs = .missing → load_all filepath fs = .ok ([], initialFile)) := by
  constructor
  · rintro rfl
    exact ⟨rfl, fun r h => by cases h⟩
  · rintro rfl
    rfl

/-- Claim C7 witness: the two file states at the default path. -/
theorem load_all_spec_witness :
    (load_all "data/expenses.json" .invalidJson =
      .error "Error: Data file is corrupted. Please check data/expenses.json" ∧
      ∀ r, load_all "data/expenses.json" .invalidJson ≠ .ok r) ∧
    load_all "data/expenses.json" .missing = .ok ([], initialFile) :=
  ⟨(load_all_spec "data/expenses.json" .invalidJson).1 rfl,
   (load_all_spec "data/expenses.json" .missing).2 rfl⟩

/-- Claim C8: `format_amount` fails exactly on non-numeric input and on
values `≤ 0` (so `0` and negatives are rejected while `0.01` is accepted),
and otherwise returns the value rounded to 2 decimal places with the
round-half-to-even rule modelling Python's native `round`. -/
theorem format_amount_spec (a : AmountInput) :
    ((∃ msg, format_amount a = .error msg) ↔
      a = .nonNumeric ∨ ∃ q, a = .numeric q ∧ q ≤ 0) ∧
    (∀ q, a = .numeric q → 0 < q → format_amount a = .ok (pyRound2 q)) ∧
    (∃ msg, format_amount (.numeric 0) = .error msg) ∧
    format_amount (.numeric (1 / 100)) = .ok (1 / 100) := by
  refine ⟨?_, ?_, ?_, ?_⟩
  · constructor
    · intro ⟨msg, hmsg⟩
      cases a with
      | nonNumeric => exact Or.inl rfl
      | numeric q =>
        refine Or.inr ⟨q, rfl, ?_⟩
        by_contra hq
        push_neg at hq
        have : validate_amount q = true := by
          simp only [validate_amount, Bool.not_eq_true', decide_eq_false_iff_not]
          exact not_le.mpr hq
        simp [format_amount, this] at hmsg
    · rintro (rfl | ⟨q, rfl, hq⟩)
      · exact ⟨_, rfl⟩
      · have : validate_amount q = false := by simp [validate_amount, hq]
        exact ⟨"Error: amount must be > 0", by simp [format_amount, this]⟩
  · rintro q rfl hq
    have : validate_amount q = true := by simp [validate_amount]; linarith
    simp [format_amount, this]
  · exact ⟨"Error: amount must be > 0", by simp [format_amount, validate_amount]⟩
  · with_unfolding_all rfl

/-- Claim C8 witness: a strictly positive value is accepted and rounded;
a negative value is rejected. -/
theorem format_amount_spec_witness :
    format_amount (.numeric 10) = .ok (pyRound2 10) ∧
    (∃ msg, format_amount (.numeric (-5)) = .error msg) :=
  ⟨(format_amount_spec (.numeric 10)).2.1 10 rfl (by norm_num),
   ((format_amount_spec (.numeric (-5))).1).mpr (Or.inr ⟨-5, rfl, by norm_num⟩)⟩

/-- Frame lemma for `Storage.update` under a patch whose fields are linked
to the optional arguments of `edit_expense`. -/
theorem update_frame_fields (expense_id : String) (u : Storage.ExpensePatch)
    (col : List Expense) (r : Option Expense) (col' : List Expense)
    (today : String) (date category_arg : Option String) (amount : Option ℚ)
    (note currency : Option String)
    (h : Storage.update expense_id u col = (r, col'))
    (hd0 : date = none → u.date = none)
    (hd1 : ∀ d, date = some d → ∃ fd, format_date today (some d) = .ok fd ∧ u.date = some fd)
    (hc0 : category_arg = none → u.category = none)
    (hc1 : ∀ c, category_arg = some c → ∃ fc, format_category c = .ok fc ∧ u.category = some fc)
    (ha0 : amount = none → u.amount = none)
    (ha1 : ∀ a, amount = some a → ∃ fa, format_amount (.numeric a) = .ok fa ∧ u.amount = some fa)
    (hn : u.note = note.map pyStrip)
    (hcu : u.currency = currency) :
    ((∀ e ∈ col, e.id ≠ expense_id) → r = none ∧ col' = col) ∧
    (∀ pre e post, col = pre ++ e :: post → (∀ x ∈ pre, x.id ≠ expense_id) →
      e.id = expense_id →
      ∃ e', r = some e' ∧ col' = pre ++ e' :: post ∧
        e'.id = e.id ∧ e'.created_at = e.created_at ∧
        (date = none → e'.date = e.date) ∧
        (category_arg = none → e'.category = e.category) ∧
        (amount = none → e'.amount = e.amount) ∧
        (note = none → e'.note = e.note) ∧
        (currency = none → e'.currency = e.currency) ∧
        (∀ d, date = some d → format_date today (some d) = .ok e'.date) ∧
        (∀ c, category_arg = some c → format_category c = .ok e'.category) ∧
        (∀ a, amount = some a → format_amount (.numeric a) = .ok e'.amount) ∧
        (∀ n, note = some n → e'.note = pyStrip n) ∧
        (∀ c, currency = some c → e'.currency = c)) := by
  constructor
  · intro hnone
    have hu := Storage.update_no_match expense_id u col hnone
    rw [hu] at h
    exact ⟨(congrArg Prod.fst h).symm, (congrArg Prod.snd h).symm⟩
  · rintro pre e post rfl hpre he
    have hu := Storage.update_first_match expense_id u pre e post hpre he
    rw [hu] at h
    obtain ⟨hr, hcol⟩ := Prod.ext_iff.mp h
    refine ⟨Storage.applyPatch e u, hr.symm, hcol.symm, rfl, rfl, ?_, ?_, ?_, ?_, ?_,
      ?_, ?_, ?_, ?_, ?_⟩
    · intro hdn
      simp [Storage.applyPatch, hd0 hdn]
    · intro hcn
      simp [Storage.applyPatch, hc0 hcn]
    · intro han
      simp [Storage.applyPatch, ha0 han]
    · intro hnn
      rw [hnn] at hn
      simp [Storage.applyPatch, hn]
    · intro hcun
      rw [hcun] at hcu
      simp [Storage.applyPatch, hcu]
    · intro d hd
      obtain ⟨fd, hok, hud⟩ := hd1 d hd
      simpa [Storage.applyPatch, hud] using hok
    · intro c hc
      obtain ⟨fc, hok, huc⟩ := hc1 c hc
      simpa [Storage.applyPatch, huc] using hok
    · intro a ha
      obtain ⟨fa, hok, hua⟩ := ha1 a ha
      simpa [Storage.applyPatch, hua] using hok
    · intro n hnn
      rw [hnn] at hn
      simp [Storage.applyPatch, hn]
    · intro c hcun
      rw [hcun] at hcu
      simp [Storage.applyPatch, hcu]

/-- Claim C6: when `edit_expense` succeeds it modifies only the first
record with a matching id, sets exactly the supplied fields (to their
validated/normalized values), keeps every unsupplied field — in particular
`id` and `created_at` are never changed — and returns the updated record;
with no matching record it returns `none` and the collection is unchanged. -/
theorem edit_expense_frame (today expense_id : String)
    (date category_arg : Option String) (amount : Option ℚ) (note currency : Option String)
    (col : List Expense) (r : Option Expense) (col' : List Expense)
    (h : edit_expense today expense_id date category_arg amount note currency col =
      .ok (r, col')) :
    ((∀ e ∈ col, e.id ≠ expense_id) → r = none ∧ col' = col) ∧
    (∀ pre e post, col = pre ++ e :: post → (∀ x ∈ pre, x.id ≠ expense_id) →
      e.id = expense_id →
      ∃ e', r = some e' ∧ col' = pre ++ e' :: post ∧
        e'.id = e.id ∧ e'.created_at = e.created_at ∧
        (date = none → e'.date = e.date) ∧
        (category_arg = none → e'.category = e.category) ∧
        (amount = none → e'.amount = e.amount) ∧
        (note = none → e'.note = e.note) ∧
        (currency = none → e'.currency = e.currency) ∧
        (∀ d, date = some d → format_date today (some d) = .ok e'.date) ∧
        (∀ c, category_arg = some c → format_category c = .ok e'.category) ∧
        (∀ a, amount = some a → format_amount (.numeric a) = .ok e'.amount) ∧
        (∀ n, note = some n → e'.note = pyStrip n) ∧
        (∀ c, currency = some c → e'.currency = c)) := by
  simp only [edit_expense, bind, Except.bind, pure, Except.pure] at h
  rcases date with _ | d <;> rcases category_arg with _ | c <;> rcases amount with _ | a
  · -- none / none / none
    simp only [Except.ok.injEq] at h
    refine update_frame_fields _ _ _ _ _ _ _ _ _ _ _ h ?_ ?_ ?_ ?_ ?_ ?_ ?_ ?_
    · intro _; cases note <;> cases currency <;> rfl
    · intro d hd; exact nomatch hd
    · intro _; cases note <;> cases currency <;> rfl
    · intro c hc; exact nomatch hc
    · intro _; cases note <;> cases currency <;> rfl
    · intro a ha; exact nomatch ha
    · cases note <;> cases currency <;> rfl
    · cases note <;> cases currency <;> rfl
  · -- none / none / some a
    cases hfa : format_amount (.numeric a) with
    | error m =>
      simp only [hfa] at h
      exact Except.noConfusion h
    | ok fa =>
      simp only [hfa, Except.ok.injEq] at h
      refine update_frame_fields _ _ _ _ _ _ _ _ _ _ _ h ?_ ?_ ?_ ?_ ?_ ?_ ?_ ?_
      · intro _; cases note <;> cases currency <;> rfl
      · intro d hd; exact nomatch hd
      · intro _; cases note <;> cases currency <;> rfl
      · intro c hc; exact nomatch hc
      · intro ha; exact nomatch ha
      · intro a' ha
        cases ha
        exact ⟨fa, hfa, by cases note <;> cases currency <;> rfl⟩
      · cases note <;> cases currency <;> rfl
      · cases note <;> cases currency <;> rfl
  · -- none / some c / none
    cases hfc : format_category c with
    | error m =>
      simp only [hfc] at h
      exact Except.noConfusion h
    | ok fc =>
      simp only [hfc, Except.ok.injEq] at h
      refine update_frame_fields _ _ _ _ _ _ _ _ _ _ _ h ?_ ?_ ?_ ?_ ?_ ?_ ?_ ?_
      · intro _; cases note <;> cases currency <;> rfl
      · intro d hd; exact nomatch hd
      · intro hc; exact nomatch hc
      · intro c' hc
        cases hc
        exact ⟨fc, hfc, by cases note <;> cases currency <;> rfl⟩
      · intro _; cases note <;> cases currency <;> rfl
      · intro a ha; exact nomatch ha
      · cases note <;> cases currency <;> rfl
      · cases note <;> cases currency <;> rfl
  · -- none / some c / some a
    cases hfc : format_category c with
    | error m =>
      simp only [hfc] at h
      exact Except.noConfusion h
    | ok fc =>
      cases hfa : format_amount (.numeric a) with
      | error m =>
      simp only [hfc, hfa] at h
      exact Except.noConfusion h
      | ok fa =>
        simp only [hfc, hfa, Except.ok.injEq] at h
        refine update_frame_fields _ _ _ _ _ _ _ _ _ _ _ h ?_ ?_ ?_ ?_ ?_ ?_ ?_ ?_
        · intro _; cases note <;> cases currency <;> rfl
        · intro d hd; exact nomatch hd
        · intro hc; exact nomatch hc
        · intro c' hc
          cases hc
          exact ⟨fc, hfc, by cases note <;> cases currency <;> rfl⟩
        · intro ha; exact nomatch ha
        · intro a' ha
          cases ha
          exact ⟨fa, hfa, by cases note <;> cases currency <;> rfl⟩
        · cases note <;> cases currency <;> rfl
        · cases note <;> cases currency <;> rfl
  · -- some d / none / none
    cases hfd : format_date today (some d) with
    | error m =>
      simp only [hfd] at h
      exact Except.noConfusion h
    | ok fd =>
      simp only [hfd, Except.ok.injEq] at h
      refine update_frame_fields _ _ _ _ _ _ _ _ _ _ _ h ?_ ?_ ?_ ?_ ?_ ?_ ?_ ?_
      · intro hd; exact nomatch hd
      · intro d' hd
        cases hd
        exact ⟨fd, hfd, by cases note <;> cases currency <;> rfl⟩
      · intro _; cases note <;> cases currency <;> rfl
      · intro c hc; exact nomatch hc
      · intro _; cases note <;> cases currency <;> rfl
      · intro a ha; exact nomatch ha
      · cases note <;> cases currency <;> rfl
      · cases note <;> cases currency <;> rfl
  · -- some d / none / some a
    cases hfd : format_date today (some d) with
    | error m =>
      simp only [hfd] at h
      exact Except.noConfusion h
    | ok fd =>
      cases hfa : format_amount (.numeric a) with
      | error m =>
      simp only [hfd, hfa] at h
      exact Except.noConfusion h
      | ok fa =>
        simp only [hfd, hfa, Except.ok.injEq] at h
        refine update_frame_fields _ _ _ _ _ _ _ _ _ _ _ h ?_ ?_ ?_ ?_ ?_ ?_ ?_ ?_
        · intro hd; exact nomatch hd
        · intro d' hd
          cases hd
          exact ⟨fd, hfd, by cases note <;> cases currency <;> rfl⟩
        · intro _; cases note <;> cases currency <;> rfl
        · intro c hc; exact nomatch hc
        · intro ha; exact nomatch ha
        · intro a' ha
          cases ha
          exact ⟨fa, hfa, by cases note <;> cases currency <;> rfl⟩
        · cases note <;> cases currency <;> rfl
        · cases note <;> cases currency <;> rfl
  · -- some d / some c / none
    cases hfd : format_date today (some d) with
    | error m =>
      simp only [hfd] at h
      exact Except.noConfusion h
    | ok fd =>
      cases hfc : format_category c with
      | error m =>
      simp only [hfd, hfc] at h
      exact Except.noConfusion h
      | ok fc =>
        simp only [hfd, hfc, Except.ok.injEq] at h
        refine update_frame_fields _ _ _ _ _ _ _ _ _ _ _ h ?_ ?_ ?_ ?_ ?_ ?_ ?_ ?_
        · intro hd; exact nomatch hd
        · intro d' hd
          cases hd
          exact ⟨fd, hfd, by cases note <;> cases currency <;> rfl⟩
        · intro hc; exact nomatch hc
        · intro c' hc
          cases hc
          exact ⟨fc, hfc, by cases note <;> cases currency <;> rfl⟩
        · intro _; cases note <;> cases currency <;> rfl
        · intro a ha; exact nomatch ha
        · cases note <;> cases currency <;> rfl
        · cases note <;> cases currency <;> rfl
  · -- some d / some c / some a
    cases hfd : format_date today (some d) with
    | error m =>
      simp only [hfd] at h
      exact Except.noConfusion h
    | ok fd =>
      cases hfc : format_category c with
      | error m =>
      simp only [hfd, hfc] at h
      exact Except.noConfusion h
      | ok fc =>
        cases hfa : format_amount (.numeric a) with
        | error m =>
      simp only [hfd, hfc, hfa] at h
      exact Except.noConfusion h
        | ok fa =>
          simp only [hfd, hfc, hfa, Except.ok.injEq] at h
          refine update_frame_fields _ _ _ _ _ _ _ _ _ _ _ h ?_ ?_ ?_ ?_ ?_ ?_ ?_ ?_
          · intro hd; exact nomatch hd
          · intro d' hd
            cases hd
            exact ⟨fd, hfd, by cases note <;> cases currency <;> rfl⟩
          · intro hc; exact nomatch hc
          · intro c' hc
            cases hc
            exact ⟨fc, hfc, by cases note <;> cases currency <;> rfl⟩
          · intro ha; exact nomatch ha
          · intro a' ha
            cases ha
            exact ⟨fa, hfa, by cases note <;> cases currency <;> rfl⟩
          · cases note <;> cases currency <;> rfl
          · cases note <;> cases currency <;> rfl

/-- Claim C6 witness: editing the amount of the only record keeps id,
creation timestamp and date, and sets the amount. -/
theorem edit_expense_frame_witness :
    ∃ e' : Expense, e'.id = "EXP-20240115-0001" ∧ e'.created_at = "t0" ∧
      e'.date = "2024-01-15" ∧ e'.amount = 42 := by
  have h := edit_expense_frame "2024-06-01" "EXP-20240115-0001" none none (some 42) none none
      [{ id := "EXP-20240115-0001", date := "2024-01-15", category := "food", amount := 10,
         currency := "BDT", note := "n0", created_at := "t0" }]
      (some { id := "EXP-20240115-0001", date := "2024-01-15", category := "food", amount := 42,
              currency := "BDT", note := "n0", created_at := "t0" })
      [{ id := "EXP-20240115-0001", date := "2024-01-15", category := "food", amount := 42,
         currency := "BDT", note := "n0", created_at := "t0" }]
      (by with_unfolding_all rfl)
  obtain ⟨e', hr, hcol, hid, hca, hdn, hcn, han, hnn, hcun, hds, hcs, has, hns, hcus⟩ :=
    h.2 [] _ [] rfl (fun x hx => absurd hx (List.not_mem_nil x)) rfl
  have h42 : format_amount (.numeric 42) = .ok (42 : ℚ) := by with_unfolding_all rfl
  have hamount : e'.amount = 42 := Except.ok.inj ((has 42 rfl).symm.trans h42)
  exact ⟨e', hid, hca, hdn rfl, hamount⟩

/-! ## Lemmas on splitting, decimal rendering and parsing (for claim C1) -/

theorem splitOnChar_ne_nil (c : Char) : ∀ l : List Char, splitOnChar c l ≠ []
  | [] => by simp [splitOnChar]
  | x :: xs => by
    by_cases hx : x = c
    · simp [splitOnChar, hx]
    · simp only [splitOnChar, hx, if_false]
      cases hs : splitOnChar c xs with
      | nil => exact absurd hs (splitOnChar_ne_nil c xs)
      | cons h t => simp

theorem getLastD_irrel {α : Type} {l : List α} (h : l ≠ []) (d₁ d₂ : α) :
    l.getLastD d₁ = l.getLastD d₂ := by
  cases l with
  | nil => exact absurd rfl h
  | cons a t => rw [List.getLastD_cons, List.getLastD_cons]

theorem splitOnChar_no_sep {c : Char} : ∀ {l : List Char}, (∀ x ∈ l, x ≠ c) →
    splitOnChar c l = [l]
  | [], _ => rfl
  | x :: xs, h => by
    have hx : x ≠ c := h x (List.mem_cons_self x xs)
    have hxs := splitOnChar_no_sep (fun y hy => h y (List.mem_cons_of_mem x hy))
    simp [splitOnChar, hx, hxs]

theorem splitOnChar_length_of_mem {c : Char} : ∀ {l : List Char}, c ∈ l →
    2 ≤ (splitOnChar c l).length
  | [], h => absurd h (List.not_mem_nil c)
  | x :: xs, h => by
    by_cases hx : x = c
    · have := splitOnChar_ne_nil c xs
      simp only [splitOnChar, hx, if_pos rfl, List.length_cons]
      cases hs : splitOnChar c xs with
      | nil => exact absurd hs this
      | cons a t => simp
    · have hmem : c ∈ xs := by
        rcases List.mem_cons.mp h with h' | h'
        · exact absurd h'.symm hx
        · exact h'
      have hlen := splitOnChar_length_of_mem hmem
      simp only [splitOnChar, hx, if_false]
      cases hs : splitOnChar c xs with
      | nil => exact absurd hs (splitOnChar_ne_nil c xs)
      | cons a t =>
        rw [hs] at hlen
        simpa using hlen

theorem splitOnChar_append_sep (c : Char) (b : List Char) : ∀ a : List Char,
    (splitOnChar c (a ++ c :: b)).getLastD [] = (splitOnChar c b).getLastD []
  | [] => by
    have h1 : splitOnChar c ([] ++ c :: b) = [] :: splitOnChar c b := by
      simp [splitOnChar]
    rw [h1, List.getLastD_cons]
  | x :: a => by
    have ih := splitOnChar_append_sep c b a
    by_cases hx : x = c
    · have h1 : splitOnChar c ((x :: a) ++ c :: b) = [] :: splitOnChar c (a ++ c :: b) := by
        rw [List.cons_append]
        simp [splitOnChar, hx]
      rw [h1, List.getLastD_cons]
      exact ih
    · have hmem : c ∈ a ++ c :: b := List.mem_append_right a (List.mem_cons_self c b)
      have hlen := splitOnChar_length_of_mem hmem
      cases hs : splitOnChar c (a ++ c :: b) with
      | nil => exact absurd hs (splitOnChar_ne_nil c _)
      | cons h t =>
        have h1 : splitOnChar c ((x :: a) ++ c :: b) = (x :: h) :: t := by
          rw [List.cons_append]
          simp only [splitOnChar, hx, if_false]
          rw [hs]
        rw [hs] at hlen ih
        have ht : t ≠ [] := by
          intro hnil
          rw [hnil] at hlen
          simp at hlen
        rw [List.getLastD_cons] at ih
        rw [h1, List.getLastD_cons, getLastD_irrel ht (x :: h) h]
        exact ih

/-- The characters `Nat.digitChar` produces for digits. -/
def isDecimalChar (x : Char) : Prop := ∃ d, d < 10 ∧ x = Nat.digitChar d

theorem isDecimalChar_facts {x : Char} (h : isDecimalChar x) :
    x.isDigit = true ∧ isPySpace x = false ∧ x ≠ '-' ∧ x ≠ '+' := by
  obtain ⟨d, hd, rfl⟩ := h
  interval_cases d <;> exact ⟨by decide, by decide, by decide, by decide⟩

theorem digitVal_digitChar {d : Nat} (h : d < 10) : digitVal (Nat.digitChar d) = d := by
  interval_cases d <;> decide

theorem digitsVal_append_singleton (l : List Char) (ch : Char) :
    digitsVal (l ++ [ch]) = 10 * digitsVal l + digitVal ch := by
  unfold digitsVal
  rw [List.foldl_append]
  rfl

theorem natToCharsAux_spec : ∀ f n, n ≤ f →
    digitsVal (natToCharsAux f n) = n ∧
    (∀ x ∈ natToCharsAux f n, isDecimalChar x) ∧
    (n ≠ 0 → natToCharsAux f n ≠ [])
  | f, 0, _ => by
    cases f <;> exact ⟨rfl, by simp [natToCharsAux], fun h => absurd rfl h⟩
  | 0, n + 1, h => by omega
  | f + 1, n + 1, h => by
    have hdiv : (n + 1) / 10 ≤ f := by omega
    obtain ⟨ih1, ih2, ih3⟩ := natToCharsAux_spec f ((n + 1) / 10) hdiv
    have hmod : (n + 1) % 10 < 10 := Nat.mod_lt _ (by norm_num)
    refine ⟨?_, ?_, ?_⟩
    · show digitsVal (natToCharsAux f ((n + 1) / 10) ++ [Nat.digitChar ((n + 1) % 10)]) = n + 1
      rw [digitsVal_append_singleton, ih1, digitVal_digitChar hmod]
      omega
    · intro x hx
      rcases List.mem_append.mp hx with hx' | hx'
      · exact ih2 x hx'
      · rcases List.mem_singleton.mp hx' with rfl
        exact ⟨_, hmod, rfl⟩
    · intro _
      simp [natToCharsAux]

theorem natToChars_spec (n : Nat) :
    digitsVal (natToChars n) = n ∧
    (∀ x ∈ natToChars n, isDecimalChar x) ∧ natToChars n ≠ [] := by
  unfold natToChars
  by_cases hn : n = 0
  · subst hn
    refine ⟨by decide, ?_, by simp⟩
    intro x hx
    rcases List.mem_singleton.mp hx with rfl
    exact ⟨0, by norm_num, rfl⟩
  · simp only [hn, if_false]
    obtain ⟨h1, h2, h3⟩ := natToCharsAux_spec n n le_rfl
    exact ⟨h1, h2, h3 hn⟩

theorem digitsVal_replicate_zero (k : Nat) (l : List Char) :
    digitsVal (List.replicate k '0' ++ l) = digitsVal l := by
  induction k with
  | zero => rfl
  | succ k ih =>
    rw [List.replicate_succ, List.cons_append]
    unfold digitsVal
    simp only [List.foldl_cons]
    have h0 : 10 * 0 + digitVal '0' = 0 := by decide
    rw [h0]
    exact ih

theorem dropWhile_eq_self_of_none {p : Char → Bool} {l : List Char}
    (h : ∀ x ∈ l, p x = false) : l.dropWhile p = l := by
  cases l with
  | nil => rfl
  | cons a t => simp [List.dropWhile, h a (List.mem_cons_self a t)]

theorem stripWS_eq_self {l : List Char} (h : ∀ x ∈ l, isPySpace x = false) :
    stripWS l = l := by
  unfold stripWS
  rw [dropWhile_eq_self_of_none h, dropWhile_eq_self_of_none, List.reverse_reverse]
  intro x hx
  exact h x (List.mem_reverse.mp hx)

theorem pyInt?_of_decimalChars {l : List Char} (hne : l ≠ [])
    (hd : ∀ x ∈ l, isDecimalChar x) : pyInt? l = some ((digitsVal l : Nat) : Int) := by
  have hsp : ∀ x ∈ l, isPySpace x = false := fun x hx => (isDecimalChar_facts (hd x hx)).2.1
  have hstrip : stripWS l = l := stripWS_eq_self hsp
  unfold pyInt?
  dsimp only
  rw [hstrip]
  cases l with
  | nil => exact absurd rfl hne
  | cons a t =>
    have ha := isDecimalChar_facts (hd a (List.mem_cons_self a t))
    have hcond : ¬((a :: t).head? = some '+' ∨ (a :: t).head? = some '-') := by
      rintro (h | h) <;> simp only [List.head?_cons, Option.some.injEq] at h
      · exact ha.2.2.2 h
      · exact ha.2.2.1 h
    rw [if_neg hcond]
    have hsign : ¬(a :: t).head? = some '-' := fun h => hcond (Or.inr h)
    rw [if_neg hsign]
    have hall : (a :: t).all Char.isDigit = true := by
      rw [List.all_eq_true]
      intro x hx
      exact (isDecimalChar_facts (hd x hx)).1
    rw [if_pos ⟨by simp, hall⟩]
    simp

theorem pad4_data {k : Int} (hk : 0 ≤ k) :
    (pad4 k).data = List.replicate (4 - (natToChars k.natAbs).length) '0' ++
      natToChars k.natAbs := by
  unfold pad4
  have : ¬k < 0 := not_lt.mpr hk
  simp [this]

theorem pad4_decimalChars {k : Int} (hk : 0 ≤ k) :
    (∀ x ∈ (pad4 k).data, isDecimalChar x) ∧ (pad4 k).data ≠ [] := by
  obtain ⟨-, h2, h3⟩ := natToChars_spec k.natAbs
  rw [pad4_data hk]
  constructor
  · intro x hx
    rcases List.mem_append.mp hx with hx' | hx'
    · rw [List.eq_of_mem_replicate hx']
      exact ⟨0, by norm_num, rfl⟩
    · exact h2 x hx'
  · simp [h3]

theorem pyInt?_pad4 {k : Int} (hk : 0 ≤ k) : pyInt? (pad4 k).data = some k := by
  obtain ⟨hchars, hne⟩ := pad4_decimalChars hk
  rw [pyInt?_of_decimalChars hne hchars, pad4_data hk, digitsVal_replicate_zero]
  rw [(natToChars_spec k.natAbs).1]
  rw [Int.natAbs_of_nonneg hk]

theorem string_data_append (s t : String) : (s ++ t).data = s.data ++ t.data := rfl

theorem isPrefixOf_append_self : ∀ (l t : List Char), l.isPrefixOf (l ++ t) = true
  | [], t => by simp [List.isPrefixOf]
  | a :: l, t => by simp [List.isPrefixOf, isPrefixOf_append_self l t]

theorem foldr_max_nonneg : ∀ l : List Int, 0 ≤ l.foldr max 0
  | [] => le_refl 0
  | x :: l => le_trans (foldr_max_nonneg l) (le_max_right x _)

/-- The integer suffixes the claim's scan extracts: one entry per id that
starts with the date prefix and whose suffix after the last `-` parses. -/
def matchingSuffixes (col : List Expense) (datePref : String) : List Int :=
  col.filterMap (fun e =>
    if pyStartsWith e.id datePref then pyInt? (lastComp '-' e.id) else none)

/-- The parsed sequence suffix of an id (0 when it does not parse). -/
def suffInt (id : String) : Int := (pyInt? (lastComp '-' id)).getD 0

theorem maxSeq_le_foldl (datePref : String) : ∀ (col : List Expense) (a : Int),
    a ≤ col.foldl
      (fun acc exp =>
        if pyStartsWith exp.id datePref then
          match pyInt? (lastComp '-' exp.id) with
          | some seq => max acc seq
          | none => acc
        else acc) a
  | [], a => le_refl a
  | e :: col, a => by
    rw [List.foldl_cons]
    refine le_trans ?_ (maxSeq_le_foldl datePref col _)
    by_cases hs : pyStartsWith e.id datePref
    · rw [if_pos hs]
      cases pyInt? (lastComp '-' e.id) with
      | none => exact le_refl a
      | some s => exact le_max_left a s
    · rw [if_neg hs]

theorem maxSeq_nonneg (col : List Expense) (datePref : String) :
    0 ≤ maxSeq col datePref :=
  maxSeq_le_foldl datePref col 0

theorem maxSeq_foldl_eq (datePref : String) : ∀ (col : List Expense) (a : Int), 0 ≤ a →
    col.foldl
      (fun acc exp =>
        if pyStartsWith exp.id datePref then
          match pyInt? (lastComp '-' exp.id) with
          | some seq => max acc seq
          | none => acc
        else acc) a =
    max a ((matchingSuffixes col datePref).foldr max 0)
  | [], a, ha => by
    simp [matchingSuffixes]
    omega
  | e :: col, a, ha => by
    rw [List.foldl_cons]
    by_cases hs : pyStartsWith e.id datePref
    · rw [if_pos hs]
      cases hp : pyInt? (lastComp '-' e.id) with
      | none =>
        rw [maxSeq_foldl_eq datePref col a ha]
        have : matchingSuffixes (e :: col) datePref = matchingSuffixes col datePref := by
          simp [matchingSuffixes, List.filterMap_cons, hs, hp]
        rw [this]
      | some s =>
        have ha' : 0 ≤ max a s := le_trans ha (le_max_left a s)
        rw [maxSeq_foldl_eq datePref col (max a s) ha']
        have : matchingSuffixes (e :: col) datePref = s :: matchingSuffixes col datePref := by
          simp [matchingSuffixes, List.filterMap_cons, hs, hp]
        rw [this, List.foldr_cons]
        omega
    · rw [if_neg hs]
      rw [maxSeq_foldl_eq datePref col a ha]
      have : matchingSuffixes (e :: col) datePref = matchingSuffixes col datePref := by
        simp [matchingSuffixes, List.filterMap_cons, hs]
      rw [this]

theorem maxSeq_eq_foldr_max (col : List Expense) (datePref : String) :
    maxSeq col datePref = (matchingSuffixes col datePref).foldr max 0 := by
  unfold maxSeq
  rw [maxSeq_foldl_eq datePref col 0 le_rfl]
  exact max_eq_right (foldr_max_nonneg _)

theorem maxSeq_append_one (col : List Expense) (e : Expense) (datePref : String) :
    maxSeq (col ++ [e]) datePref =
      if pyStartsWith e.id datePref then
        match pyInt? (lastComp '-' e.id) with
        | some seq => max (maxSeq col datePref) seq
        | none => maxSeq col datePref
      else maxSeq col datePref := by
  unfold maxSeq
  rw [List.foldl_append]
  rfl

/-- The generated id splits as prefix, separator, zero-padded suffix, and
the suffix parses back to the sequence number. -/
theorem generate_id_data (col : List Expense) (date : String) :
    (generate_id col date).data =
      ("EXP-" ++ stripDashes date).data ++
        '-' :: (pad4 (maxSeq col ("EXP-" ++ stripDashes date) + 1)).data := by
  show (("EXP-" ++ stripDashes date) ++ "-" ++ pad4 _).data = _
  rw [string_data_append, string_data_append, List.append_assoc]
  rfl

theorem lastComp_generate_id (col : List Expense) (date : String) :
    lastComp '-' (generate_id col date) =
      (pad4 (maxSeq col ("EXP-" ++ stripDashes date) + 1)).data := by
  have hk : (0:Int) ≤ maxSeq col ("EXP-" ++ stripDashes date) + 1 := by
    have := maxSeq_nonneg col ("EXP-" ++ stripDashes date)
    omega
  obtain ⟨hchars, hne⟩ := pad4_decimalChars hk
  unfold lastComp
  rw [generate_id_data, splitOnChar_append_sep]
  rw [splitOnChar_no_sep (fun x hx => (isDecimalChar_facts (hchars x hx)).2.2.1)]
  rfl

theorem suffInt_generate_id (col : List Expense) (date : String) :
    suffInt (generate_id col date) = maxSeq col ("EXP-" ++ stripDashes date) + 1 := by
  have hk : (0:Int) ≤ maxSeq col ("EXP-" ++ stripDashes date) + 1 := by
    have := maxSeq_nonneg col ("EXP-" ++ stripDashes date)
    omega
  unfold suffInt
  rw [lastComp_generate_id, pyInt?_pad4 hk]
  rfl

theorem pyStartsWith_generate_id (col : List Expense) (date : String) :
    pyStartsWith (generate_id col date) ("EXP-" ++ stripDashes date) = true := by
  unfold pyStartsWith
  rw [generate_id_data]
  have : ("EXP-" ++ stripDashes date).data ++
      '-' :: (pad4 (maxSeq col ("EXP-" ++ stripDashes date) + 1)).data =
      ("EXP-" ++ stripDashes date).data ++
      ('-' :: (pad4 (maxSeq col ("EXP-" ++ stripDashes date) + 1)).data) := rfl
  rw [this]
  exact isPrefixOf_append_self _ _

/-- The shape `YYYY-MM-DD`: ten characters, digits except dashes at
positions 4 and 7. -/
def isDateShape (s : String) : Bool :=
  match s.data with
  | [y1, y2, y3, y4, h1, m1, m2, h2, d1, d2] =>
    [y1, y2, y3, y4, m1, m2, d1, d2].all Char.isDigit && h1 = '-' && h2 = '-'
  | _ => false

theorem isDateShape_length {s : String} (h : isDateShape s = true) :
    s.data.length = 10 := by
  unfold isDateShape at h
  split at h
  next y1 y2 y3 y4 c1 m1 m2 c2 d1 d2 heq =>
    rw [heq]
    rfl
  next => simp at h

theorem isDateShape_ne_empty {s : String} (h : isDateShape s = true) : ¬s = "" := by
  intro hs
  have := isDateShape_length h
  rw [hs] at this
  simp at this

theorem isDateShape_ne_today {s : String} (h : isDateShape s = true) :
    ¬pyLower s = "today" := by
  intro hs
  have h10 := isDateShape_length h
  have : (pyLower s).data.length = 10 := by
    unfold pyLower
    simpa using h10
  rw [hs] at this
  simp at this

theorem string_ext {s t : String} (h : s.data = t.data) : s = t := by
  cases s with
  | mk d1 =>
    cases t with
    | mk d2 =>
      have h' : d1 = d2 := h
      rw [h']

/-- Claim C1: `generate_id` scans the whole collection for ids with the
`EXP-<date-without-dashes>` prefix, takes the maximum of the integer
suffixes after the last `-` (silently skipping unparsable suffixes), and
returns the prefix with sequence max+1 zero-padded to 4 digits; with no
matching id the sequence starts at `0001`, and a successful `add_expense`
on the same date strictly increases the generated sequence number. -/
theorem generate_id_spec (col : List Expense) (date : String)
    (hdate : isDateShape date = true) :
    (generate_id col date =
      "EXP-" ++ stripDashes date ++ "-" ++
        pad4 ((matchingSuffixes col ("EXP-" ++ stripDashes date)).foldr max 0 + 1)) ∧
    ((∀ e ∈ col, pyStartsWith e.id ("EXP-" ++ stripDashes date) = false) →
      generate_id col date = "EXP-" ++ stripDashes date ++ "-0001") ∧
    (∀ today created_at category amount note currency exp col',
      add_expense today created_at (some date) category amount note currency col =
        .ok (exp, col') →
      exp.id = generate_id col date ∧ col' = col ++ [exp] ∧
      suffInt (generate_id col date) < suffInt (generate_id col' date)) := by
  refine ⟨?_, ?_, ?_⟩
  · show ("EXP-" ++ stripDashes date) ++ "-" ++ pad4 _ = _
    rw [maxSeq_eq_foldr_max]
  · intro hnone
    have hsuf : matchingSuffixes col ("EXP-" ++ stripDashes date) = [] := by
      unfold matchingSuffixes
      rw [List.filterMap_eq_nil_iff]
      intro e he
      rw [hnone e he]
      rfl
    show ("EXP-" ++ stripDashes date) ++ "-" ++ pad4 _ = _
    rw [maxSeq_eq_foldr_max, hsuf]
    apply string_ext
    have h1 : (pad4 (([] : List Int).foldr max 0 + 1)).data = "0001".data := by decide
    have h3 : "-".data ++ "0001".data = "-0001".data := by decide
    simp only [string_data_append, List.append_assoc, h1, h3]
  · intro today created_at category amount note currency exp col' h
    have hne := isDateShape_ne_empty hdate
    have hnt := isDateShape_ne_today hdate
    unfold add_expense at h
    simp only [bind, Except.bind, pure, Except.pure, format_date] at h
    rw [if_neg (fun hc => hc.elim hne hnt)] at h
    cases hvd : validate_date date with
    | false =>
      rw [hvd] at h
      simp at h
    | true =>
      rw [hvd, if_pos rfl] at h
      cases hfa : format_amount (.numeric amount) with
      | error m =>
        rw [hfa] at h
        simp at h
      | ok fa =>
        rw [hfa] at h
        cases hfc : format_category category with
        | error m =>
          rw [hfc] at h
          simp at h
        | ok fc =>
          rw [hfc] at h
          simp only [Except.ok.injEq, Prod.mk.injEq] at h
          obtain ⟨hexp, hcol⟩ := h
          have hid : exp.id = generate_id col date := by rw [← hexp]
          refine ⟨hid, ?_, ?_⟩
          · rw [← hcol, ← hexp]
            rfl
          · have hcol' : col' = col ++ [exp] := by
              rw [← hcol, ← hexp]
              rfl
            have hsuff : pyInt? (lastComp '-' exp.id) =
                some (maxSeq col ("EXP-" ++ stripDashes date) + 1) := by
              rw [hid, lastComp_generate_id, pyInt?_pad4]
              have := maxSeq_nonneg col ("EXP-" ++ stripDashes date)
              omega
            have hpre : pyStartsWith exp.id ("EXP-" ++ stripDashes date) = true := by
              rw [hid]
              exact pyStartsWith_generate_id col date
            have hmax : maxSeq col' ("EXP-" ++ stripDashes date) =
                maxSeq col ("EXP-" ++ stripDashes date) + 1 := by
              rw [hcol', maxSeq_append_one, if_pos hpre, hsuff]
              dsimp only
              exact max_eq_right (by omega)
            rw [suffInt_generate_id, suffInt_generate_id, hmax]
            omega

/-- Claim C1 witness: on the empty collection the first id for
`2024-01-15` has sequence `0001`, and a successful add strictly increases
the next sequence number. -/
theorem generate_id_spec_witness :
    isDateShape "2024-01-15" = true ∧
    generate_id [] "2024-01-15" = "EXP-" ++ stripDashes "2024-01-15" ++ "-0001" ∧
    ∃ exp col',
      add_expense "2024-01-15" "t0" (some "2024-01-15") "food" 10 "" "BDT" [] =
        .ok (exp, col') ∧
      suffInt (generate_id [] "2024-01-15") < suffInt (generate_id col' "2024-01-15") := by
  have hshape : isDateShape "2024-01-15" = true := by decide
  refine ⟨hshape,
    (generate_id_spec [] "2024-01-15" hshape).2.1
      (fun e he => absurd he (List.not_mem_nil e)), ?_⟩
  have hadd : add_expense "2024-01-15" "t0" (some "2024-01-15") "food" 10 "" "BDT" [] =
      .ok ({ id := "EXP-20240115-0001", date := "2024-01-15", category := "food",
             amount := 10, currency := "BDT", note := "", created_at := "t0" },
           [{ id := "EXP-20240115-0001", date := "2024-01-15", category := "food",
              amount := 10, currency := "BDT", note := "", created_at := "t0" }]) := by
    with_unfolding_all rfl
  have h3 := (generate_id_spec [] "2024-01-15" hshape).2.2 "2024-01-15" "t0" "food" 10 ""
    "BDT" _ _ hadd
  exact ⟨_, _, hadd, h3.2.2⟩

/-! ## Lemmas on string comparison and sorting (for claims C2, C3, C4) -/

theorem pyStrLtL_iff : ∀ a b : List Char, pyStrLtL a b = true ↔ List.Lex (· < ·) a b
  | [], [] => by
    refine iff_of_false (by simp [pyStrLtL]) ?_
    intro h
    nomatch h
  | [], _ :: _ => by
    refine iff_of_true rfl ?_
    exact List.Lex.nil
  | a :: as, [] => by
    refine iff_of_false (by simp [pyStrLtL]) ?_
    intro h
    nomatch h
  | a :: as, b :: bs => by
    unfold pyStrLtL
    by_cases h1 : a < b
    · rw [if_pos h1]
      exact iff_of_true rfl (List.Lex.rel h1)
    · rw [if_neg h1]
      by_cases h2 : b < a
      · rw [if_pos h2]
        refine iff_of_false (by simp) ?_
        intro h
        cases h with
        | cons _ => exact absurd h2 (lt_irrefl _)
        | rel hab => exact absurd hab h1
      · rw [if_neg h2]
        have hab : a = b := le_antisymm (not_lt.mp h2) (not_lt.mp h1)
        subst hab
        rw [pyStrLtL_iff as bs]
        constructor
        · intro h
          exact List.Lex.cons h
        · intro h
          cases h with
          | cons htail => exact htail
          | rel hr => exact absurd hr (lt_irrefl a)

theorem pyStrLe_iff (s t : String) : pyStrLe s t = true ↔ s ≤ t := by
  rw [← not_lt, String.lt_iff_toList_lt]
  unfold pyStrLe
  constructor
  · intro h hlt
    have hlt' : List.Lex (· < ·) t.data s.data := hlt
    have hx : pyStrLtL t.data s.data = true := (pyStrLtL_iff t.data s.data).mpr hlt'
    rw [hx] at h
    simp at h
  · intro h
    cases hx : pyStrLtL t.data s.data with
    | false => rfl
    | true => exact absurd ((pyStrLtL_iff _ _).mp hx) h

theorem sortLe_trans (sort_by : String) (descending : Bool) (a b c : Expense)
    (hab : sortLe sort_by descending a b = true)
    (hbc : sortLe sort_by descending b c = true) :
    sortLe sort_by descending a c = true := by
  unfold sortLe at hab hbc ⊢
  by_cases h1 : sort_by = "amount"
  · rw [if_pos h1] at hab hbc ⊢
    cases descending
    · rw [if_neg (by simp)] at hab hbc ⊢
      exact decide_eq_true (le_trans (of_decide_eq_true hab) (of_decide_eq_true hbc))
    · rw [if_pos rfl] at hab hbc ⊢
      exact decide_eq_true (le_trans (of_decide_eq_true hbc) (of_decide_eq_true hab))
  · rw [if_neg h1] at hab hbc ⊢
    by_cases h2 : sort_by = "category"
    · rw [if_pos h2] at hab hbc ⊢
      cases descending
      · rw [if_neg (by simp)] at hab hbc ⊢
        rw [pyStrLe_iff] at hab hbc ⊢
        exact le_trans hab hbc
      · rw [if_pos rfl] at hab hbc ⊢
        rw [pyStrLe_iff] at hab hbc ⊢
        exact le_trans hbc hab
    · rw [if_neg h2] at hab hbc ⊢
      cases descending
      · rw [if_neg (by simp)] at hab hbc ⊢
        rw [pyStrLe_iff] at hab hbc ⊢
        exact le_trans hab hbc
      · rw [if_pos rfl] at hab hbc ⊢
        rw [pyStrLe_iff] at hab hbc ⊢
        exact le_trans hbc hab

theorem sortLe_total (sort_by : String) (descending : Bool) (a b : Expense) :
    sortLe sort_by descending a b = true ∨ sortLe sort_by descending b a = true := by
  by_cases h1 : sort_by = "amount"
  · cases descending
    · rcases le_total a.amount b.amount with h | h
      · exact Or.inl (by unfold sortLe; rw [if_pos h1, if_neg (by simp)]; exact decide_eq_true h)
      · exact Or.inr (by unfold sortLe; rw [if_pos h1, if_neg (by simp)]; exact decide_eq_true h)
    · rcases le_total a.amount b.amount with h | h
      · exact Or.inr (by unfold sortLe; rw [if_pos h1, if_pos rfl]; exact decide_eq_true h)
      · exact Or.inl (by unfold sortLe; rw [if_pos h1, if_pos rfl]; exact decide_eq_true h)
  · by_cases h2 : sort_by = "category"
    · cases descending
      · rcases le_total a.category b.category with h | h
        · exact Or.inl (by
            unfold sortLe
            rw [if_neg h1, if_pos h2, if_neg (by simp)]
            exact (pyStrLe_iff _ _).mpr h)
        · exact Or.inr (by
            unfold sortLe
            rw [if_neg h1, if_pos h2, if_neg (by simp)]
            exact (pyStrLe_iff _ _).mpr h)
      · rcases le_total a.category b.category with h | h
        · exact Or.inr (by
            unfold sortLe
            rw [if_neg h1, if_pos h2, if_pos rfl]
            exact (pyStrLe_iff _ _).mpr h)
        · exact Or.inl (by
            unfold sortLe
            rw [if_neg h1, if_pos h2, if_pos rfl]
            exact (pyStrLe_iff _ _).mpr h)
    · cases descending
      · rcases le_total a.date b.date with h | h
        · exact Or.inl (by
            unfold sortLe
            rw [if_neg h1, if_neg h2, if_neg (by simp)]
            exact (pyStrLe_iff _ _).mpr h)
        · exact Or.inr (by
            unfold sortLe
            rw [if_neg h1, if_neg h2, if_neg (by simp)]
            exact (pyStrLe_iff _ _).mpr h)
      · rcases le_total a.date b.date with h | h
        · exact Or.inr (by
            unfold sortLe
            rw [if_neg h1, if_neg h2, if_pos rfl]
            exact (pyStrLe_iff _ _).mpr h)
        · exact Or.inl (by
            unfold sortLe
            rw [if_neg h1, if_neg h2, if_pos rfl]
            exact (pyStrLe_iff _ _).mpr h)

/-- The claim's single conjunctive filter predicate: month as a string
prefix of the date, inclusive lexicographic date bounds, case-insensitive
exact category match, inclusive numeric amount bounds; an absent filter
imposes nothing. -/
def matchesFilters (month from_date to_date category : Option String)
    (min_amount max_amount : Option ℚ) (e : Expense) : Bool :=
  (match month with
    | none => true
    | some m => pyStartsWith e.date m) &&
  (match from_date with
    | none => true
    | some d => pyStrLe d e.date) &&
  (match to_date with
    | none => true
    | some d => pyStrLe e.date d) &&
  (match category with
    | none => true
    | some c => decide (pyLower e.category = pyLower c)) &&
  (match min_amount with
    | none => true
    | some q => decide (q ≤ e.amount)) &&
  (match max_amount with
    | none => true
    | some q => decide (e.amount ≤ q))

/-- The sequential filters of `_apply_filters` coincide with one
conjunctive filter, provided no supplied string filter is the empty string
(which Python truthiness treats as absent). -/
theorem apply_filters_eq (expenses : List Expense)
    (month from_date to_date category : Option String) (min_amount max_amount : Option ℚ)
    (hm : month ≠ some "") (hf : from_date ≠ some "") (ht : to_date ≠ some "")
    (hc : category ≠ some "") :
    apply_filters expenses month from_date to_date category min_amount max_amount =
      expenses.filter
        (matchesFilters month from_date to_date category min_amount max_amount) := by
  rcases month with _ | m <;> rcases from_date with _ | f <;> rcases to_date with _ | t <;>
    rcases category with _ | c <;> rcases min_amount with _ | mi <;> rcases ma : max_amount with _ | mx <;>
    simp only [ne_eq, Option.some.injEq] at hm hf ht hc <;>
    simp [apply_filters, truthyStr, hm, hf, ht, hc, List.filter_filter] <;>
    (first
      | rfl
      | (symm
         rw [List.filter_eq_self]
         intro e _
         simp [matchesFilters])
      | (apply List.filter_congr
         intro e _
         rw [Bool.eq_iff_iff]
         simp only [matchesFilters, Bool.and_eq_true, decide_eq_true_eq]
         all_goals tauto))

/-- Two expenses are tied for the chosen sort key iff each compares
less-or-equal to the other under the ascending comparison. -/
def sortTie (sort_by : String) (a b : Expense) : Bool :=
  sortLe sort_by false a b && sortLe sort_by false b a

theorem sortLe_flip (sort_by : String) (a b : Expense) :
    sortLe sort_by true a b = sortLe sort_by false b a := by
  unfold sortLe
  by_cases h1 : sort_by = "amount"
  · rw [if_pos h1, if_pos h1, if_pos rfl, if_neg (by simp)]
  · by_cases h2 : sort_by = "category"
    · rw [if_neg h1, if_neg h1, if_pos h2, if_pos h2, if_pos rfl, if_neg (by simp)]
    · rw [if_neg h1, if_neg h1, if_neg h2, if_neg h2, if_pos rfl, if_neg (by simp)]

theorem sortLe_of_ties (sort_by : String) (descending : Bool) (a b e₀ : Expense)
    (ha : sortTie sort_by a e₀ = true) (hb : sortTie sort_by b e₀ = true) :
    sortLe sort_by descending a b = true := by
  unfold sortTie at ha hb
  rw [Bool.and_eq_true] at ha hb
  cases descending
  · exact sortLe_trans sort_by false a e₀ b ha.1 hb.2
  · rw [sortLe_flip]
    exact sortLe_trans sort_by false b e₀ a hb.1 ha.2

/-- Claim C3: `list_expenses` returns exactly the records satisfying the
conjunction of the supplied filters, sorted by the chosen key in the
requested direction by a stable sort (ties keep original collection
order), truncated to the first `limit` entries when a positive limit is
given (and not truncated otherwise). -/
theorem list_expenses_spec (col : List Expense)
    (month from_date to_date category : Option String) (min_amount max_amount : Option ℚ)
    (sort_by : String) (descending : Bool) (limit : Option Int)
    (hm : month ≠ some "") (hf : from_date ≠ some "") (ht : to_date ≠ some "")
    (hc : category ≠ some "")
    (hs : sort_by = "date" ∨ sort_by = "amount" ∨ sort_by = "category") :
    List.Perm
      (list_expenses col month from_date to_date category min_amount max_amount
        sort_by descending none)
      (col.filter (matchesFilters month from_date to_date category min_amount max_amount)) ∧
    List.Pairwise (fun a b => sortLe sort_by descending a b = true)
      (list_expenses col month from_date to_date category min_amount max_amount
        sort_by descending none) ∧
    (∀ e₀ : Expense,
      (list_expenses col month from_date to_date category min_amount max_amount
          sort_by descending none).filter (fun e => sortTie sort_by e e₀) =
        (col.filter (matchesFilters month from_date to_date category min_amount
          max_amount)).filter (fun e => sortTie sort_by e e₀)) ∧
    (∀ l, limit = some l → 0 < l →
      list_expenses col month from_date to_date category min_amount max_amount
          sort_by descending limit =
        (list_expenses col month from_date to_date category min_amount max_amount
          sort_by descending none).take l.toNat) ∧
    (∀ l, limit = some l → ¬0 < l →
      list_expenses col month from_date to_date category min_amount max_amount
          sort_by descending limit =
        list_expenses col month from_date to_date category min_amount max_amount
          sort_by descending none) := by
  have hfe := apply_filters_eq col month from_date to_date category min_amount max_amount
    hm hf ht hc
  have hle : list_expenses col month from_date to_date category min_amount max_amount
      sort_by descending none =
      List.insertionSort (fun a b => sortLe sort_by descending a b = true)
        (col.filter (matchesFilters month from_date to_date category min_amount
          max_amount)) := by
    unfold list_expenses sort_expenses
    rw [hfe]
  haveI htot : IsTotal Expense (fun a b => sortLe sort_by descending a b = true) :=
    ⟨fun a b => sortLe_total sort_by descending a b⟩
  haveI htrans : IsTrans Expense (fun a b => sortLe sort_by descending a b = true) :=
    ⟨fun a b c => sortLe_trans sort_by descending a b c⟩
  refine ⟨?_, ?_, ?_, ?_, ?_⟩
  · rw [hle]
    exact List.perm_insertionSort _ _
  · rw [hle]
    exact List.sorted_insertionSort _ _
  · intro e₀
    rw [hle]
    have hcsub : List.Sublist
        ((col.filter (matchesFilters month from_date to_date category min_amount
          max_amount)).filter (fun e => sortTie sort_by e e₀))
        (col.filter (matchesFilters month from_date to_date category min_amount
          max_amount)) := List.filter_sublist _
    have hcpair : ((col.filter (matchesFilters month from_date to_date category min_amount
        max_amount)).filter (fun e => sortTie sort_by e e₀)).Pairwise
          (fun a b => sortLe sort_by descending a b = true) := by
      apply List.pairwise_of_forall_mem_list
      intro a ha b hb
      exact sortLe_of_ties sort_by descending a b e₀
        (List.mem_filter.mp ha).2 (List.mem_filter.mp hb).2
    have h1 := List.sublist_insertionSort hcpair hcsub
    have h2 : ((col.filter (matchesFilters month from_date to_date category min_amount
        max_amount)).filter (fun e => sortTie sort_by e e₀)).filter
          (fun e => sortTie sort_by e e₀) =
        (col.filter (matchesFilters month from_date to_date category min_amount
          max_amount)).filter (fun e => sortTie sort_by e e₀) :=
      List.filter_eq_self.mpr (fun a ha => (List.mem_filter.mp ha).2)
    have h3 := List.Sublist.filter (fun e => sortTie sort_by e e₀) h1
    rw [h2] at h3
    have h4 := (List.perm_insertionSort
      (fun a b => sortLe sort_by descending a b = true)
      (col.filter (matchesFilters month from_date to_date category min_amount
        max_amount))).filter (fun e => sortTie sort_by e e₀)
    exact (h3.eq_of_length (h4.length_eq.trans rfl).symm).symm
  · rintro l rfl hl
    unfold list_expenses
    dsimp only
    rw [if_pos hl]
  · rintro l rfl hl
    unfold list_expenses
    dsimp only
    rw [if_neg hl]

/-- Claim C3 witness: the filtered-selection permutation property at a
concrete collection and filter combination. -/
theorem list_expenses_spec_witness :
    List.Perm
      (list_expenses
        [{ id := "EXP-20240110-0001", date := "2024-01-10", category := "food", amount := 12 },
         { id := "EXP-20240210-0001", date := "2024-02-10", category := "food", amount := 7 },
         { id := "EXP-20240111-0001", date := "2024-01-11", category := "rent", amount := 7 }]
        (some "2024-01") none none (some "Food") (some 5) none "amount" true (some 1))
      (List.take 1
        (list_expenses
          [{ id := "EXP-20240110-0001", date := "2024-01-10", category := "food", amount := 12 },
           { id := "EXP-20240210-0001", date := "2024-02-10", category := "food", amount := 7 },
           { id := "EXP-20240111-0001", date := "2024-01-11", category := "rent", amount := 7 }]
          (some "2024-01") none none (some "Food") (some 5) none "amount" true none)) := by
  have h := list_expenses_spec
    [{ id := "EXP-20240110-0001", date := "2024-01-10", category := "food", amount := 12 },
     { id := "EXP-20240210-0001", date := "2024-02-10", category := "food", amount := 7 },
     { id := "EXP-20240111-0001", date := "2024-01-11", category := "rent", amount := 7 }]
    (some "2024-01") none none (some "Food") (some 5) none "amount" true (some 1)
    (by simp) (by simp) (by simp) (by simp) (Or.inr (Or.inl rfl))
  rw [h.2.2.2.1 1 rfl (by norm_num)]
  exact List.Perm.refl _

/-! ## Lemmas on the category-totals accumulation (for claims C2, C4, C9) -/

/-- The keys of an association list, in order. -/
def keysOf (m : List (String × ℚ)) : List String := m.map (fun kv => kv.1)

/-- The sum of the values of an association list. -/
def valueSum (m : List (String × ℚ)) : ℚ := (m.map (fun kv => kv.2)).sum

/-- First-match lookup in an association list (Python `dict[key]`). -/
def lookupTot : List (String × ℚ) → String → Option ℚ
  | [], _ => none
  | (k, v) :: rest, c => if k = c then some v else lookupTot rest c

/-- Sum of the amounts of the records of a given category. -/
def categoryTotal (l : List Expense) (cat : String) : ℚ :=
  ((l.filter (fun e => e.category = cat)).map (fun e => e.amount)).sum

theorem categoryTotal_cons (x : Expense) (l : List Expense) (c : String) :
    categoryTotal (x :: l) c =
      if x.category = c then x.amount + categoryTotal l c else categoryTotal l c := by
  unfold categoryTotal
  by_cases hx : x.category = c
  · simp [List.filter_cons, hx]
  · simp [List.filter_cons, hx]

theorem valueSum_bumpFirst (c : String) (a : ℚ) : ∀ m : List (String × ℚ),
    (∃ kv ∈ m, kv.1 = c) → valueSum (bumpFirst c a m) = valueSum m + a
  | [], h => by
    rcases h with ⟨kv, hm, -⟩
    exact absurd hm (List.not_mem_nil kv)
  | (k, v) :: rest, h => by
    by_cases hk : k = c
    · simp only [bumpFirst, if_pos hk, valueSum, List.map_cons, List.sum_cons]
      ring
    · have hrest : ∃ kv ∈ rest, kv.1 = c := by
        rcases h with ⟨kv, hm, hc⟩
        rcases List.mem_cons.mp hm with rfl | hm'
        · exact absurd hc hk
        · exact ⟨kv, hm', hc⟩
      have ih := valueSum_bumpFirst c a rest hrest
      simp only [bumpFirst, if_neg hk, valueSum, List.map_cons, List.sum_cons] at ih ⊢
      rw [ih]
      ring

theorem valueSum_addToTotals (m : List (String × ℚ)) (c : String) (a : ℚ) :
    valueSum (addToTotals m c a) = valueSum m + a := by
  unfold addToTotals
  by_cases h : m.any (fun kv => kv.1 = c)
  · rw [if_pos h]
    apply valueSum_bumpFirst
    simpa using h
  · rw [if_neg h]
    simp [valueSum]

theorem keysOf_bumpFirst (c : String) (a : ℚ) : ∀ m : List (String × ℚ),
    keysOf (bumpFirst c a m) = keysOf m
  | [] => rfl
  | (k, v) :: rest => by
    have ih := keysOf_bumpFirst c a rest
    by_cases hk : k = c
    · simp [bumpFirst, hk, keysOf]
    · simp only [bumpFirst, if_neg hk, keysOf, List.map_cons]
      exact congrArg (List.cons k) ih

theorem mem_keysOf_iff {k : String} {m : List (String × ℚ)} :
    k ∈ keysOf m ↔ ∃ kv ∈ m, kv.1 = k := by
  unfold keysOf
  simp [List.mem_map]

theorem keysOf_addToTotals (m : List (String × ℚ)) (c : String) (a : ℚ) :
    keysOf (addToTotals m c a) =
      if m.any (fun kv => kv.1 = c) then keysOf m else keysOf m ++ [c] := by
  unfold addToTotals
  by_cases h : m.any (fun kv => kv.1 = c)
  · rw [if_pos h, if_pos h, keysOf_bumpFirst]
  · rw [if_neg h, if_neg h]
    simp [keysOf]

theorem nodup_keysOf_addToTotals {m : List (String × ℚ)} (c : String) (a : ℚ)
    (h : (keysOf m).Nodup) : (keysOf (addToTotals m c a)).Nodup := by
  rw [keysOf_addToTotals]
  by_cases hany : m.any (fun kv => kv.1 = c)
  · rw [if_pos hany]
    exact h
  · rw [if_neg hany]
    have hc : c ∉ keysOf m := by
      intro hmem
      rcases mem_keysOf_iff.mp hmem with ⟨kv, hkv, hk⟩
      have : m.any (fun kv => kv.1 = c) = true := by
        rw [List.any_eq_true]
        exact ⟨kv, hkv, by simpa using hk⟩
      exact hany this
    simp [List.nodup_append, h, hc]

theorem mem_keysOf_addToTotals {k : String} (m : List (String × ℚ)) (c : String) (a : ℚ) :
    k ∈ keysOf (addToTotals m c a) ↔ k ∈ keysOf m ∨ k = c := by
  rw [keysOf_addToTotals]
  by_cases hany : m.any (fun kv => kv.1 = c)
  · rw [if_pos hany]
    constructor
    · exact Or.inl
    · rintro (h | rfl)
      · exact h
      · rw [List.any_eq_true] at hany
        rcases hany with ⟨kv, hkv, hk⟩
        exact mem_keysOf_iff.mpr ⟨kv, hkv, by simpa using hk⟩
  · rw [if_neg hany]
    simp

theorem lookupTot_isSome_of_any {m : List (String × ℚ)} {c : String}
    (h : m.any (fun kv => kv.1 = c) = true) : ∃ v, lookupTot m c = some v := by
  induction m with
  | nil => simp at h
  | cons kv rest ih =>
    obtain ⟨k, v⟩ := kv
    by_cases hk : k = c
    · exact ⟨v, by simp [lookupTot, hk]⟩
    · have : rest.any (fun kv => kv.1 = c) = true := by
        simp only [List.any_cons, Bool.or_eq_true] at h
        rcases h with h | h
        · exact absurd (by simpa using h) hk
        · exact h
      rcases ih this with ⟨v', hv'⟩
      exact ⟨v', by simp [lookupTot, hk, hv']⟩

theorem lookupTot_none_of_not_any {m : List (String × ℚ)} {c : String}
    (h : ¬m.any (fun kv => kv.1 = c) = true) : lookupTot m c = none := by
  induction m with
  | nil => rfl
  | cons kv rest ih =>
    obtain ⟨k, v⟩ := kv
    simp only [List.any_cons, Bool.or_eq_true] at h
    push_neg at h
    have hk : ¬k = c := by simpa using h.1
    simp only [lookupTot, if_neg hk]
    exact ih h.2

theorem lookupTot_bumpFirst (c₀ : String) (a : ℚ) (c : String) :
    ∀ m : List (String × ℚ), lookupTot (bumpFirst c₀ a m) c =
      if c = c₀ then (lookupTot m c).map (fun v => v + a) else lookupTot m c
  | [] => by
    by_cases hc : c = c₀ <;> simp [bumpFirst, lookupTot, hc]
  | (k, v) :: rest => by
    have ih := lookupTot_bumpFirst c₀ a c rest
    by_cases hk : k = c₀
    · by_cases hc : c = c₀
      · have hkc : k = c := hk.trans hc.symm
        simp [bumpFirst, lookupTot, hk, hc, hkc]
      · have hkc : ¬k = c := fun h => hc ((h.symm.trans hk))
        have hcc : ¬c₀ = c := fun h => hc h.symm
        simp [bumpFirst, lookupTot, hk, hc, hkc, hcc]
    · by_cases hkc : k = c
      · have hc : ¬c = c₀ := fun h => hk (hkc.trans h)
        simp [bumpFirst, lookupTot, hk, hkc, hc]
      · simp only [bumpFirst, if_neg hk, lookupTot, if_neg hkc]
        exact ih

theorem lookupTot_append_single (c₀ c : String) (a : ℚ) :
    ∀ m : List (String × ℚ), lookupTot (m ++ [(c₀, a)]) c =
      match lookupTot m c with
      | some v => some v
      | none => if c₀ = c then some a else none
  | [] => by simp [lookupTot]
  | (k, v) :: rest => by
    have ih := lookupTot_append_single c₀ c a rest
    by_cases hk : k = c
    · simp [lookupTot, hk]
    · simp only [List.cons_append, lookupTot, if_neg hk]
      exact ih

theorem lookupTot_addToTotals (m : List (String × ℚ)) (c₀ : String) (a : ℚ) (c : String) :
    lookupTot (addToTotals m c₀ a) c =
      if c = c₀ then some ((lookupTot m c).getD 0 + a) else lookupTot m c := by
  unfold addToTotals
  by_cases h : m.any (fun kv => kv.1 = c₀)
  · rw [if_pos h, lookupTot_bumpFirst]
    by_cases hc : c = c₀
    · rw [if_pos hc, if_pos hc]
      subst hc
      rcases lookupTot_isSome_of_any h with ⟨v, hv⟩
      rw [hv]
      rfl
    · rw [if_neg hc, if_neg hc]
  · rw [if_neg h, lookupTot_append_single]
    by_cases hc : c = c₀
    · subst hc
      have hnone : lookupTot m c = none := lookupTot_none_of_not_any h
      rw [hnone]
      simp
    · have : ¬c₀ = c := fun hh => hc hh.symm
      cases hv : lookupTot m c with
      | some v => rw [if_neg hc]
      | none =>
        rw [if_neg hc]
        simp [this]

theorem lookupTot_foldl (c : String) : ∀ (l : List Expense) (m : List (String × ℚ)),
    lookupTot (l.foldl (fun acc e => addToTotals acc e.category e.amount) m) c =
      match lookupTot m c with
      | some v => some (v + categoryTotal l c)
      | none =>
        if l.any (fun e => e.category = c) then some (categoryTotal l c) else none
  | [], m => by
    cases hv : lookupTot m c <;> simp [categoryTotal, hv]
  | x :: l, m => by
    rw [List.foldl_cons, lookupTot_foldl c l]
    rw [lookupTot_addToTotals]
    rw [categoryTotal_cons]
    by_cases hx : c = x.category
    · rw [if_pos hx, if_pos hx.symm]
      have hany : (x :: l).any (fun e => e.category = c) = true := by
        simp [List.any_cons, hx.symm]
      rw [hany]
      cases hv : lookupTot m c with
      | some v =>
        show some ((some v).getD 0 + x.amount + categoryTotal l c) =
          some (v + (x.amount + categoryTotal l c))
        exact congrArg some (by simp [Option.getD_some]; ring)
      | none =>
        show some ((none : Option ℚ).getD 0 + x.amount + categoryTotal l c) =
          some (x.amount + categoryTotal l c)
        exact congrArg some (by simp [Option.getD_none])
    · rw [if_neg hx]
      have hxc : ¬x.category = c := fun h => hx h.symm
      rw [if_neg hxc]
      have hany2 : (x :: l).any (fun e => e.category = c) =
          l.any (fun e => e.category = c) := by
        simp [List.any_cons, hxc]
      rw [hany2]

theorem valueSum_foldl : ∀ (l : List Expense) (m : List (String × ℚ)),
    valueSum (l.foldl (fun acc e => addToTotals acc e.category e.amount) m) =
      valueSum m + (l.map (fun e => e.amount)).sum
  | [], m => by simp
  | x :: l, m => by
    rw [List.foldl_cons, valueSum_foldl l, valueSum_addToTotals]
    simp only [List.map_cons, List.sum_cons]
    ring

theorem nodup_keysOf_foldl : ∀ (l : List Expense) (m : List (String × ℚ)),
    (keysOf m).Nodup →
    (keysOf (l.foldl (fun acc e => addToTotals acc e.category e.amount) m)).Nodup
  | [], m, h => h
  | x :: l, m, h => by
    rw [List.foldl_cons]
    exact nodup_keysOf_foldl l _ (nodup_keysOf_addToTotals x.category x.amount h)

theorem mem_keysOf_foldl_mono {k : String} : ∀ (l : List Expense) (m : List (String × ℚ)),
    k ∈ keysOf m →
    k ∈ keysOf (l.foldl (fun acc e => addToTotals acc e.category e.amount) m)
  | [], _, h => h
  | x :: l, m, h => by
    rw [List.foldl_cons]
    exact mem_keysOf_foldl_mono l _ ((mem_keysOf_addToTotals m _ _).mpr (Or.inl h))

theorem mem_keysOf_foldl_of_mem : ∀ (l : List Expense) (m : List (String × ℚ))
    (e : Expense), e ∈ l →
    e.category ∈ keysOf (l.foldl (fun acc e => addToTotals acc e.category e.amount) m)
  | [], _, e, h => absurd h (List.not_mem_nil e)
  | x :: l, m, e, h => by
    rw [List.foldl_cons]
    rcases List.mem_cons.mp h with rfl | h'
    · exact mem_keysOf_foldl_mono l _
        ((mem_keysOf_addToTotals m _ _).mpr (Or.inr rfl))
    · exact mem_keysOf_foldl_of_mem l _ e h'

theorem sum_map_add_nat {α : Type} (l : List α) (f g : α → ℕ) :
    (l.map (fun k => f k + g k)).sum = (l.map f).sum + (l.map g).sum := by
  induction l with
  | nil => rfl
  | cons a l ih =>
    simp only [List.map_cons, List.sum_cons, ih]
    omega

theorem sum_indicator_eq_zero {ks : List String} {c : String} (h : c ∉ ks) :
    (ks.map (fun k => if c = k then (1:ℕ) else 0)).sum = 0 := by
  induction ks with
  | nil => rfl
  | cons a ks ih =>
    have ha : ¬c = a := fun hh => h (hh ▸ List.mem_cons_self a ks)
    simp only [List.map_cons, List.sum_cons, if_neg ha]
    rw [Nat.zero_add]
    exact ih (fun hh => h (List.mem_cons_of_mem a hh))

theorem sum_indicator_eq_one {ks : List String} {c : String} (hn : ks.Nodup)
    (hm : c ∈ ks) : (ks.map (fun k => if c = k then (1:ℕ) else 0)).sum = 1 := by
  induction ks with
  | nil => exact absurd hm (List.not_mem_nil c)
  | cons a ks ih =>
    rcases List.mem_cons.mp hm with rfl | hmem
    · have hnot : c ∉ ks := (List.nodup_cons.mp hn).1
      simp [List.map_cons, List.sum_cons, sum_indicator_eq_zero hnot]
    · have ha : ¬c = a := by
        intro hh
        subst hh
        exact (List.nodup_cons.mp hn).1 hmem
      simp only [List.map_cons, List.sum_cons, if_neg ha]
      rw [Nat.zero_add]
      exact ih (List.nodup_cons.mp hn).2 hmem

theorem length_eq_sum_countP : ∀ (l : List Expense) (ks : List String), ks.Nodup →
    (∀ e ∈ l, e.category ∈ ks) →
    (ks.map (fun k => l.countP (fun e => decide (e.category = k)))).sum = l.length
  | [], ks, _, _ => by simp [List.countP_nil]
  | x :: l, ks, hn, hmem => by
    have hx : x.category ∈ ks := hmem x (List.mem_cons_self x l)
    have hrest : ∀ e ∈ l, e.category ∈ ks :=
      fun e he => hmem e (List.mem_cons_of_mem x he)
    have hsplit : (ks.map (fun k => (x :: l).countP (fun e => decide (e.category = k)))) =
        ks.map (fun k => l.countP (fun e => decide (e.category = k)) +
          if x.category = k then 1 else 0) := by
      apply List.map_congr_left
      intro k _
      rw [List.countP_cons]
      by_cases hxk : x.category = k
      · simp [hxk]
      · simp [hxk]
    rw [hsplit, sum_map_add_nat, length_eq_sum_countP l ks hn hrest,
      sum_indicator_eq_one hn hx, List.length_cons]

/-- Field-level description of `summary`: every field is an aggregate of
the list `list_expenses` returns for the same four filters (with its
default date-ascending sort and no limit). -/
theorem summary_eq_aggregates (col : List Expense)
    (month from_date to_date category : Option String) :
    (summary col month from_date to_date category).count =
      (list_expenses col month from_date to_date category none none "date" false
        none).length ∧
    (summary col month from_date to_date category).grand_total =
      ((list_expenses col month from_date to_date category none none "date" false
        none).map (fun e => e.amount)).sum ∧
    (summary col month from_date to_date category).totals_by_category =
      (list_expenses col month from_date to_date category none none "date" false
        none).foldl (fun m e => addToTotals m e.category e.amount) [] ∧
    (summary col month from_date to_date category).currency =
      (match list_expenses col month from_date to_date category none none "date" false
        none with
       | [] => "BDT"
       | e :: _ => e.currency) ∧
    (summary col month from_date to_date category).period =
      get_period_description month from_date to_date := by
  cases hsel : list_expenses col month from_date to_date category none none "date" false
    none with
  | nil =>
    unfold summary
    dsimp only
    rw [hsel]
    exact ⟨rfl, by simp, rfl, rfl, rfl⟩
  | cons first rest =>
    unfold summary
    dsimp only
    rw [hsel]
    exact ⟨rfl, rfl, rfl, rfl, rfl⟩

theorem perm_any {l₁ l₂ : List Expense} (h : List.Perm l₁ l₂) (p : Expense → Bool) :
    l₁.any p = l₂.any p := by
  rw [Bool.eq_iff_iff, List.any_eq_true, List.any_eq_true]
  constructor
  · rintro ⟨x, hx, hp⟩
    exact ⟨x, h.mem_iff.mp hx, hp⟩
  · rintro ⟨x, hx, hp⟩
    exact ⟨x, h.mem_iff.mpr hx, hp⟩

theorem categoryTotal_perm {l₁ l₂ : List Expense} (h : List.Perm l₁ l₂) (c : String) :
    categoryTotal l₁ c = categoryTotal l₂ c := by
  unfold categoryTotal
  exact ((h.filter (fun e => decide (e.category = c))).map (fun e => e.amount)).sum_eq

/-- Claim C9: the `grand_total` of a summary equals the sum of the values
of `totals_by_category`, and `count` equals the sum over the categories of
the number of aggregated records contributing to each category. -/
theorem summary_totals_consistent (col : List Expense)
    (month from_date to_date category : Option String) :
    (summary col month from_date to_date category).grand_total =
      ((summary col month from_date to_date category).totals_by_category.map
        (fun kv => kv.2)).sum ∧
    (summary col month from_date to_date category).count =
      ((summary col month from_date to_date category).totals_by_category.map
        (fun kv =>
          (list_expenses col month from_date to_date category none none "date" false
            none).countP (fun e => decide (e.category = kv.1)))).sum := by
  obtain ⟨hcnt, htot, htotals, -, -⟩ :=
    summary_eq_aggregates col month from_date to_date category
  constructor
  · rw [htot, htotals]
    have h := valueSum_foldl
      (list_expenses col month from_date to_date category none none "date" false none) []
    rw [show valueSum ([] : List (String × ℚ)) = 0 from rfl, zero_add] at h
    exact h.symm
  · rw [hcnt, htotals]
    have hnodup : (keysOf
        ((list_expenses col month from_date to_date category none none "date" false
          none).foldl (fun m e => addToTotals m e.category e.amount) [])).Nodup :=
      nodup_keysOf_foldl _ [] List.nodup_nil
    have hmem : ∀ e ∈ list_expenses col month from_date to_date category none none
        "date" false none, e.category ∈ keysOf
          ((list_expenses col month from_date to_date category none none "date" false
            none).foldl (fun m e => addToTotals m e.category e.amount) []) :=
      fun e he => mem_keysOf_foldl_of_mem _ [] e he
    have hsum := length_eq_sum_countP
      (list_expenses col month from_date to_date category none none "date" false none)
      (keysOf ((list_expenses col month from_date to_date category none none "date"
        false none).foldl (fun m e => addToTotals m e.category e.amount) []))
      hnodup hmem
    rw [← hsum]
    unfold keysOf
    rw [List.map_map]
    rfl

theorem sortLe_date_asc (a b : Expense) : sortLe "date" false a b = pyStrLe a.date b.date := by
  unfold sortLe
  rw [if_neg (by decide), if_neg (by decide), if_neg (by simp)]

/-- Claim C2 counterexample: with two records whose dates are out of order
and whose currencies differ, the summary's currency label is the currency
of the earliest-dated record, not of the first matching record in original
collection order. -/
theorem summary_currency_counterexample :
    (summary
      [{ id := "EXP-20240201-0001", date := "2024-02-01", category := "food",
         amount := 10, currency := "USD" },
       { id := "EXP-20240101-0001", date := "2024-01-01", category := "food",
         amount := 20, currency := "EUR" }] none none none none).currency = "EUR" ∧
    [{ id := "EXP-20240201-0001", date := "2024-02-01", category := "food",
       amount := 10, currency := "USD" },
     { id := "EXP-20240101-0001", date := "2024-01-01", category := "food",
       amount := 20, currency := "EUR" }].filter
        (matchesFilters none none none none none none) =
      [{ id := "EXP-20240201-0001", date := "2024-02-01", category := "food",
         amount := 10, currency := "USD" },
       { id := "EXP-20240101-0001", date := "2024-01-01", category := "food",
         amount := 20, currency := "EUR" }] ∧
    ({ id := "EXP-20240201-0001", date := "2024-02-01", category := "food",
       amount := 10, currency := "USD" } : Expense).currency = "USD" ∧
    ("EUR" : String) ≠ "USD" := by
  refine ⟨by with_unfolding_all rfl, by with_unfolding_all rfl, rfl, by decide⟩

/-- Claim C2 (amended): `summary` aggregates exactly the records selected
by the same filters as `list_expenses` — count, grand total and
per-category totals depend only on that selection — but the selection is
date-sorted before aggregation, so the currency label comes from an
earliest-dated matching record (not the first in original collection
order). -/
theorem summary_spec_amended (col : List Expense)
    (month from_date to_date category : Option String)
    (hm : month ≠ some "") (hf : from_date ≠ some "") (ht : to_date ≠ some "")
    (hc : category ≠ some "") :
    (summary col month from_date to_date category).count =
      (col.filter (matchesFilters month from_date to_date category none none)).length ∧
    (summary col month from_date to_date category).grand_total =
      ((col.filter (matchesFilters month from_date to_date category none none)).map
        (fun e => e.amount)).sum ∧
    (∀ cat, lookupTot (summary col month from_date to_date category).totals_by_category
        cat =
      (if (col.filter (matchesFilters month from_date to_date category none
            none)).any (fun e => e.category = cat) then
        some (categoryTotal
          (col.filter (matchesFilters month from_date to_date category none none)) cat)
      else none)) ∧
    (col.filter (matchesFilters month from_date to_date category none none) = [] →
      (summary col month from_date to_date category).currency = "BDT") ∧
    (col.filter (matchesFilters month from_date to_date category none none) ≠ [] →
      ∃ e ∈ col.filter (matchesFilters month from_date to_date category none none),
        (summary col month from_date to_date category).currency = e.currency ∧
        ∀ e' ∈ col.filter (matchesFilters month from_date to_date category none none),
          e.date ≤ e'.date) := by
  have hfe := apply_filters_eq col month from_date to_date category none none hm hf ht hc
  have hle : list_expenses col month from_date to_date category none none "date" false
      none =
      List.insertionSort (fun a b => sortLe "date" false a b = true)
        (col.filter (matchesFilters month from_date to_date category none none)) := by
    unfold list_expenses sort_expenses
    rw [hfe]
  have hperm : List.Perm
      (list_expenses col month from_date to_date category none none "date" false none)
      (col.filter (matchesFilters month from_date to_date category none none)) := by
    rw [hle]
    exact List.perm_insertionSort _ _
  obtain ⟨hcnt, htot, htotals, hcur, -⟩ :=
    summary_eq_aggregates col month from_date to_date category
  refine ⟨?_, ?_, ?_, ?_, ?_⟩
  · rw [hcnt]
    exact hperm.length_eq
  · rw [htot]
    exact (hperm.map (fun e => e.amount)).sum_eq
  · intro cat
    rw [htotals, lookupTot_foldl]
    show (if (list_expenses col month from_date to_date category none none "date" false
          none).any (fun e => e.category = cat) = true then
        some (categoryTotal (list_expenses col month from_date to_date category none
          none "date" false none) cat)
      else none) = _
    rw [perm_any hperm, categoryTotal_perm hperm]
  · intro hempty
    rw [hcur, hle, hempty]
    rfl
  · intro hne
    rw [hcur]
    haveI : IsTotal Expense (fun a b => sortLe "date" false a b = true) :=
      ⟨fun a b => sortLe_total "date" false a b⟩
    haveI : IsTrans Expense (fun a b => sortLe "date" false a b = true) :=
      ⟨fun a b c => sortLe_trans "date" false a b c⟩
    have hpair : List.Pairwise (fun a b => sortLe "date" false a b = true)
        (list_expenses col month from_date to_date category none none "date" false
          none) := by
      rw [hle]
      exact List.sorted_insertionSort _ _
    cases hs2 : list_expenses col month from_date to_date category none none "date"
      false none with
    | nil =>
      rw [hs2] at hperm
      exact absurd hperm.symm.eq_nil hne
    | cons e rest =>
      rw [hs2] at hpair hperm
      refine ⟨e, hperm.mem_iff.mp (List.mem_cons_self e rest), rfl, ?_⟩
      intro e' he'
      have he'2 : e' ∈ e :: rest := hperm.mem_iff.mpr he'
      rcases List.mem_cons.mp he'2 with rfl | hmem
      · exact le_refl _
      · have hr := (List.pairwise_cons.mp hpair).1 e' hmem
        rw [sortLe_date_asc] at hr
        exact (pyStrLe_iff _ _).mp hr

/-- Claim C2 witness: on a two-record collection with no filters, the
currency label is that of an earliest-dated matching record. -/
theorem summary_spec_amended_witness :
    ∃ e ∈ ([{ id := "EXP-20240201-0001", date := "2024-02-01", category := "food",
              amount := 10, currency := "USD" },
            { id := "EXP-20240101-0001", date := "2024-01-01", category := "food",
              amount := 20, currency := "EUR" }] : List Expense).filter
        (matchesFilters none none none none none none),
      (summary
        [{ id := "EXP-20240201-0001", date := "2024-02-01", category := "food",
           amount := 10, currency := "USD" },
         { id := "EXP-20240101-0001", date := "2024-01-01", category := "food",
           amount := 20, currency := "EUR" }] none none none none).currency =
        e.currency ∧
      ∀ e' ∈ ([{ id := "EXP-20240201-0001", date := "2024-02-01", category := "food",
                 amount := 10, currency := "USD" },
               { id := "EXP-20240101-0001", date := "2024-01-01", category := "food",
                 amount := 20, currency := "EUR" }] : List Expense).filter
          (matchesFilters none none none none none none),
        e.date ≤ e'.date :=
  (summary_spec_amended
    [{ id := "EXP-20240201-0001", date := "2024-02-01", category := "food",
       amount := 10, currency := "USD" },
     { id := "EXP-20240101-0001", date := "2024-01-01", category := "food",
       amount := 20, currency := "EUR" }] none none none none
    (by decide) (by decide) (by decide) (by decide)).2.2.2.2 (by decide)

/-- Claim C4: the summary's `count` is the number of matching records and
`grand_total` the sum of their amounts; with no matching record it is the
canonical empty summary (count 0, total 0, no category totals, currency
`BDT`, period synthesized from the supplied date filters); and the
three-expense scenario of the spec evaluates as stated. -/
theorem summary_counts_spec (col : List Expense)
    (month from_date to_date category : Option String)
    (hm : month ≠ some "") (hf : from_date ≠ some "") (ht : to_date ≠ some "")
    (hc : category ≠ some "") :
    (summary col month from_date to_date category).count =
      (col.filter (matchesFilters month from_date to_date category none none)).length ∧
    (summary col month from_date to_date category).grand_total =
      ((col.filter (matchesFilters month from_date to_date category none none)).map
        (fun e => e.amount)).sum ∧
    (col.filter (matchesFilters month from_date to_date category none none) = [] →
      summary col month from_date to_date category =
        { count := 0, grand_total := 0, totals_by_category := [], currency := "BDT",
          period := get_period_description month from_date to_date }) ∧
    summary
      [{ id := "EXP-20240115-0001", date := "2024-01-15", category := "food",
         amount := 10 },
       { id := "EXP-20240115-0002", date := "2024-01-15", category := "food",
         amount := 20 },
       { id := "EXP-20240115-0003", date := "2024-01-15", category := "transport",
         amount := 30 }] (some "2024-01") none none none =
      { count := 3, grand_total := 60,
        totals_by_category := [("food", 30), ("transport", 30)],
        currency := "BDT", period := "(2024-01)" } := by
  have hfe := apply_filters_eq col month from_date to_date category none none hm hf ht hc
  have hle : list_expenses col month from_date to_date category none none "date" false
      none =
      List.insertionSort (fun a b => sortLe "date" false a b = true)
        (col.filter (matchesFilters month from_date to_date category none none)) := by
    unfold list_expenses sort_expenses
    rw [hfe]
  have hperm : List.Perm
      (list_expenses col month from_date to_date category none none "date" false none)
      (col.filter (matchesFilters month from_date to_date category none none)) := by
    rw [hle]
    exact List.perm_insertionSort _ _
  obtain ⟨hcnt, htot, htotals, hcur, hper⟩ :=
    summary_eq_aggregates col month from_date to_date category
  refine ⟨?_, ?_, ?_, ?_⟩
  · rw [hcnt]
    exact hperm.length_eq
  · rw [htot]
    exact (hperm.map (fun e => e.amount)).sum_eq
  · intro hempty
    have hsel : list_expenses col month from_date to_date category none none "date"
        false none = [] := by
      rw [hle, hempty]
      rfl
    have heta : summary col month from_date to_date category =
        { count := (summary col month from_date to_date category).count,
          grand_total := (summary col month from_date to_date category).grand_total,
          totals_by_category :=
            (summary col month from_date to_date category).totals_by_category,
          currency := (summary col month from_date to_date category).currency,
          period := (summary col month from_date to_date category).period } := rfl
    rw [heta, hcnt, htot, htotals, hcur, hper, hsel]
    simp
  · with_unfolding_all rfl

/-- Claim C4 witness: the empty collection yields the canonical empty
summary for a month filter. -/
theorem summary_counts_spec_witness :
    summary [] (some "2024-01") none none none =
      { count := 0, grand_total := 0, totals_by_category := [], currency := "BDT",
        period := get_period_description (some "2024-01") none none } :=
  (summary_counts_spec [] (some "2024-01") none none none
    (by decide) (by decide) (by decide) (by decide)).2.2.1 rfl

end Tracker
